import Mathlib

/-!
# Bayazit convex decomposition (`bayazit.h`)

A shallow embedding of `p2bayazit::Decomposer`.  Coordinates are exact rationals
(the C++ `float` arithmetic is read as exact arithmetic), `std::vector<Point>` is a
`List Point`, `int` indices are `Int`, and the recursion of `TriangulatePolygon` is
driven by an explicit fuel argument: the result is `none` when the fuel runs out.
-/

namespace p2bayazit

/-- The C++ macro `MAX_VERTICES` (default 8). -/
def MAX_VERTICES : Nat := 8

/-- The C++ macro `EPSILON` (default 0.0001), as an exact rational. -/
def EPSILON : ℚ := 1 / 10000

/-- The value of `std::numeric_limits<float>().max()`. -/
def FLT_MAX : ℚ := 340282346638528859811704183484516925440

/-- The class `Point`: two coordinates. -/
structure Point where
  x : ℚ
  y : ℚ
deriving DecidableEq, Repr

/-- The default constructor `Point()`. -/
def Point.zero : Point := ⟨0, 0⟩

/-- The `operator +` on points. -/
def Point.add (a b : Point) : Point := ⟨a.x + b.x, a.y + b.y⟩

/-- The `operator /` of a point by a scalar. -/
def Point.div (a : Point) (x : ℚ) : Point := ⟨a.x / x, a.y / x⟩

/-- The type `Polygon`, a `std::vector<Point>`. -/
abbrev Polygon := List Point

/-- `At(i, vertices)`: circular indexing.  The C++ `%` on `int` is truncated division
(`Int.tmod`); the vector access is in range whenever the polygon is non-empty. -/
def At (i : Int) (vertices : Polygon) : Point :=
  let s : Int := vertices.length
  vertices.getD (if i < 0 then s - 1 - (Int.tmod (-i - 1) s) else Int.tmod i s).toNat Point.zero

/-- `Area(a, b, c)`: twice the signed area of the triangle `a b c`. -/
def Area (a b c : Point) : ℚ :=
  ((b.x - a.x) * (c.y - a.y)) - ((c.x - a.x) * (b.y - a.y))

/-- `Left(a, b, c)`. -/
def Left (a b c : Point) : Bool := decide (Area a b c > 0)

/-- `LeftOn(a, b, c)`. -/
def LeftOn (a b c : Point) : Bool := decide (Area a b c ≥ 0)

/-- `Right(a, b, c)`, the three-point overload. -/
def Right (a b c : Point) : Bool := decide (Area a b c < 0)

/-- `RightOn(a, b, c)`. -/
def RightOn (a b c : Point) : Bool := decide (Area a b c ≤ 0)

/-- `Right(i, vertices)`, the index overload. -/
def RightAt (i : Int) (vertices : Polygon) : Bool :=
  Right (At (i - 1) vertices) (At i vertices) (At (i + 1) vertices)

/-- `Reflex(i, vertices)`. -/
def Reflex (i : Int) (vertices : Polygon) : Bool := RightAt i vertices

/-- `SquareDist(a, b)`. -/
def SquareDist (a b : Point) : ℚ :=
  let dx := b.x - a.x
  let dy := b.y - a.y
  dx * dx + dy * dy

/-- `FloatEquals(value1, value2)` with tolerance `eps`. -/
def FloatEquals (eps : ℚ) (value1 value2 : ℚ) : Bool := decide (|value1 - value2| ≤ eps)

/-- The four-point `LineIntersect`: intersection of two infinite lines, the zero point
when the determinant is within the tolerance. -/
def LineIntersect (eps : ℚ) (p1 p2 q1 q2 : Point) : Point :=
  let a1 := p2.y - p1.y
  let b1 := p1.x - p2.x
  let c1 := a1 * p1.x + b1 * p1.y
  let a2 := q2.y - q1.y
  let b2 := q1.x - q2.x
  let c2 := a2 * q1.x + b2 * q1.y
  let det := a1 * b2 - a2 * b1
  if !FloatEquals eps det 0 then
    ⟨(b2 * c1 - b1 * c2) / det, (a1 * c2 - a2 * c1) / det⟩
  else Point.zero

/-- The seven-argument `LineIntersect`: the returned `bool` and the out-parameter
`point`. -/
def LineIntersectSeg (eps : ℚ) (point1 point2 point3 point4 : Point)
    (firstIsSegment secondIsSegment : Bool) : Bool × Point :=
  let a := point4.y - point3.y
  let b := point2.x - point1.x
  let c := point4.x - point3.x
  let d := point2.y - point1.y
  let denom := (a * b) - (c * d)
  if !(decide (denom ≥ -eps) && decide (denom ≤ eps)) then
    let e := point1.y - point3.y
    let f := point1.x - point3.x
    let oneOverDenom := 1 / denom
    let ua := ((c * e) - (a * f)) * oneOverDenom
    if !firstIsSegment || (decide (ua ≥ 0) && decide (ua ≤ 1)) then
      let ub := ((b * e) - (d * f)) * oneOverDenom
      if !secondIsSegment || (decide (ub ≥ 0) && decide (ub ≤ 1)) then
        if decide (ua ≠ 0) || decide (ub ≠ 0) then
          (true, ⟨point1.x + ua * b, point1.y + ua * d⟩)
        else (false, Point.zero)
      else (false, Point.zero)
    else (false, Point.zero)
  else (false, Point.zero)

/-- The five-argument `LineIntersect`: both sides are segments. -/
def LineIntersect5 (eps : ℚ) (point1 point2 point3 point4 : Point) : Bool × Point :=
  LineIntersectSeg eps point1 point2 point3 point4 true true

/-- `CanSee(i, j, vertices)`. -/
def CanSee (eps : ℚ) (i j : Int) (vertices : Polygon) : Bool :=
  let s : Int := vertices.length
  if (if Reflex i vertices then
        LeftOn (At i vertices) (At (i - 1) vertices) (At j vertices) &&
          RightOn (At i vertices) (At (i + 1) vertices) (At j vertices)
      else
        RightOn (At i vertices) (At (i + 1) vertices) (At j vertices) ||
          LeftOn (At i vertices) (At (i - 1) vertices) (At j vertices)) then false
  else if (if Reflex j vertices then
        LeftOn (At j vertices) (At (j - 1) vertices) (At i vertices) &&
          RightOn (At j vertices) (At (j + 1) vertices) (At i vertices)
      else
        RightOn (At j vertices) (At (j + 1) vertices) (At i vertices) ||
          LeftOn (At j vertices) (At (j - 1) vertices) (At i vertices)) then false
  else
    (List.range vertices.length).all fun (kn : Nat) =>
      let k : Int := kn
      if Int.tmod (k + 1) s = i || k = i || Int.tmod (k + 1) s = j || k = j then true
      else !(LineIntersect5 eps (At i vertices) (At j vertices) (At k vertices)
              (At (k + 1) vertices)).1

/-- The loop `while (j < i) j += vertices.size();` of `Copy`, with an iteration budget. -/
def raiseIndex (n : Int) (i : Int) : Nat → Int → Int
  | 0, j => j
  | fuel + 1, j => if j < i then raiseIndex n i fuel (j + n) else j

/-- `Copy(i, j, vertices, to)`: the vertices `At(i), …, At(j)` after `j` has been raised
above `i` by multiples of the size.  The `while` loop needs at most `i - j` rounds when
the polygon is non-empty. -/
def Copy (i j : Int) (vertices : Polygon) : Polygon :=
  let j := raiseIndex vertices.length i ((i - j).toNat) j
  (List.range (j + 1 - i).toNat).map fun (k : Nat) => At (i + (k : Int)) vertices

/-- The local variables of `TriangulatePolygon` written by the intersection search. -/
structure Search where
  lowerDist : ℚ
  upperDist : ℚ
  lowerInt : Point
  upperInt : Point
  lowerIndex : Int
  upperIndex : Int
deriving DecidableEq, Repr

/-- The state on entry to the search loop of the first reflex vertex: both distances at
`FLT_MAX`, both points default-constructed, both indices `0`. -/
def Search.init : Search := ⟨FLT_MAX, FLT_MAX, Point.zero, Point.zero, 0, 0⟩

/-- One iteration (index `j`) of the loop over `j` in the reflex branch. -/
def searchStep (eps : ℚ) (i : Int) (vertices : Polygon) (st : Search) (j : Int) : Search :=
  let st1 :=
    if Left (At (i - 1) vertices) (At i vertices) (At j vertices) &&
        RightOn (At (i - 1) vertices) (At i vertices) (At (j - 1) vertices) then
      let p := LineIntersect eps (At (i - 1) vertices) (At i vertices) (At j vertices)
        (At (j - 1) vertices)
      if Right (At (i + 1) vertices) (At i vertices) p then
        let d := SquareDist (At i vertices) p
        if d < st.lowerDist then
          { st with lowerDist := d, lowerInt := p, lowerIndex := j }
        else st
      else st
    else st
  if Left (At (i + 1) vertices) (At i vertices) (At (j + 1) vertices) &&
      RightOn (At (i + 1) vertices) (At i vertices) (At j vertices) then
    let p := LineIntersect eps (At (i + 1) vertices) (At i vertices) (At j vertices)
      (At (j + 1) vertices)
    if Left (At (i - 1) vertices) (At i vertices) p then
      let d := SquareDist (At i vertices) p
      if d < st1.upperDist then
        { st1 with upperDist := d, upperIndex := j, upperInt := p }
      else st1
    else st1
  else st1

/-- The whole loop `for (j = 0; j < size; ++j)` for the reflex vertex `i`. -/
def search (eps : ℚ) (i : Int) (vertices : Polygon) : Search :=
  (List.range vertices.length).foldl (fun st (j : Nat) => searchStep eps i vertices st j)
    Search.init

/-- The locals `highestScore` and `bestIndex` of the general case. -/
structure Best where
  highestScore : ℚ
  bestIndex : Int
deriving DecidableEq, Repr

/-- The score given to a visible candidate `j`. -/
def score (i j : Int) (vertices : Polygon) : ℚ :=
  let score := 1 / (SquareDist (At i vertices) (At j vertices) + 1)
  if Reflex j vertices then
    if RightOn (At (j - 1) vertices) (At j vertices) (At i vertices) &&
        LeftOn (At (j + 1) vertices) (At j vertices) (At i vertices) then
      score + 3
    else score + 2
  else score + 1

/-- One iteration (candidate `j`) of the scoring loop. -/
def scoreStep (eps : ℚ) (i : Int) (vertices : Polygon) (b : Best) (j : Int) : Best :=
  if CanSee eps i j vertices then
    if score i j vertices > b.highestScore then ⟨score i j vertices, j⟩ else b
  else b

/-- The general case up to the choice of `bestIndex`: raise `upperIndex` above
`lowerIndex`, then scan `j = lowerIndex, …, upperIndex`. -/
def bestIndex (eps : ℚ) (i lowerIndex upperIndex : Int) (vertices : Polygon) : Int :=
  let upperIndex := raiseIndex vertices.length lowerIndex (lowerIndex - upperIndex).toNat
    upperIndex
  ((List.range (upperIndex + 1 - lowerIndex).toNat).foldl
    (fun b (k : Nat) => scoreStep eps i vertices b (lowerIndex + (k : Int)))
    (⟨0, lowerIndex⟩ : Best)).bestIndex

/-- The body of `if (Reflex(i, vertices))` up to the recursive calls: the pair
`(lowerPoly, upperPoly)`. -/
def reflexSplit (eps : ℚ) (i : Int) (vertices : Polygon) : Polygon × Polygon :=
  let st := search eps i vertices
  if st.lowerIndex = Int.tmod (st.upperIndex + 1) vertices.length then
    let p := Point.div (Point.add st.lowerInt st.upperInt) 2
    (Copy i st.upperIndex vertices ++ [p], Copy st.lowerIndex i vertices ++ [p])
  else
    let best := bestIndex eps i st.lowerIndex st.upperIndex vertices
    (Copy i best vertices, Copy best i vertices)

/-- The pair `(lowerPoly, upperPoly)` of the oversized convex branch. -/
def convexSplit (vertices : Polygon) : Polygon × Polygon :=
  (Copy 0 ((vertices.length : Int) / 2) vertices,
   Copy ((vertices.length : Int) / 2) 0 vertices)

/-- The scan `for (i = 0; i < size; ++i) if (Reflex(i, vertices))`: the first reflex
index, if any. -/
def firstReflex (vertices : Polygon) : Option Nat :=
  (List.range vertices.length).find? fun (i : Nat) => Reflex (i : Int) vertices

/-- `TriangulatePolygon(vertices)` with vertex cap `maxV`, tolerance `eps` and a budget
of nested calls; `none` when the budget is exhausted before the recursion ends. -/
def TriangulatePolygon (maxV : Nat) (eps : ℚ) : Nat → Polygon → Option (List Polygon)
  | 0, _ => none
  | fuel + 1, vertices =>
    match firstReflex vertices with
    | some i =>
      let lowerPoly := (reflexSplit eps i vertices).1
      let upperPoly := (reflexSplit eps i vertices).2
      (TriangulatePolygon maxV eps fuel lowerPoly).bind fun lower =>
        (TriangulatePolygon maxV eps fuel upperPoly).bind fun upper =>
          some (lower ++ upper)
    | none =>
      if vertices.length > maxV then
        let lowerPoly := (convexSplit vertices).1
        let upperPoly := (convexSplit vertices).2
        (TriangulatePolygon maxV eps fuel lowerPoly).bind fun lower =>
          (TriangulatePolygon maxV eps fuel upperPoly).bind fun upper =>
            some (lower ++ upper)
      else some [vertices]

/-- `Decompose(vertices)` with the default `MAX_VERTICES` and `EPSILON`. -/
def Decompose (fuel : Nat) (vertices : Polygon) : Option (List Polygon) :=
  TriangulatePolygon MAX_VERTICES EPSILON fuel vertices

/-- The shoelace sum of a polygon: twice its signed area. -/
def shoelace2 (P : Polygon) : ℚ :=
  ((List.range P.length).map fun (k : Nat) =>
    (At (k : Int) P).x * (At ((k : Int) + 1) P).y -
      (At ((k : Int) + 1) P).x * (At (k : Int) P).y).sum

/-- The unsigned shoelace area of a polygon. -/
def unsignedArea (P : Polygon) : ℚ := |shoelace2 P| / 2

/-- The sum of the unsigned shoelace areas of a list of polygons. -/
def totalArea (Ps : List Polygon) : ℚ := (Ps.map unsignedArea).sum

/-- The square of scenario 1. -/
def square : Polygon := [⟨0, 0⟩, ⟨4, 0⟩, ⟨4, 4⟩, ⟨0, 4⟩]

/-- The L-shaped hexagon of scenario 2. -/
def lShape : Polygon := [⟨0, 0⟩, ⟨4, 0⟩, ⟨4, 2⟩, ⟨2, 2⟩, ⟨2, 4⟩, ⟨0, 4⟩]

/-- A pentagon whose first reflex vertex takes the degenerate (Steiner) split. -/
def pentagon : Polygon := [⟨0, 0⟩, ⟨2, 3⟩, ⟨4, 0⟩, ⟨4, 4⟩, ⟨0, 4⟩]

/-- The cross product of two position vectors: one term of the shoelace sum. -/
def cross (a b : Point) : ℚ := a.x * b.y - b.x * a.y

/-- The shoelace terms of the `m` consecutive edges starting at circular index `a`. -/
def chain (P : Polygon) (a : Int) (m : Nat) : ℚ :=
  ((List.range m).map fun (k : Nat) =>
    cross (At (a + (k : Int)) P) (At (a + (k : Int) + 1) P)).sum

/-- Two closed segments `p1 p2` and `p3 p4` have a point in common. -/
def segmentsMeet (p1 p2 p3 p4 : Point) : Bool :=
  let onSeg := fun (a b c : Point) =>
    decide (Area a b c = 0) && decide (min a.x b.x ≤ c.x) && decide (c.x ≤ max a.x b.x) &&
      decide (min a.y b.y ≤ c.y) && decide (c.y ≤ max a.y b.y)
  (decide (Area p3 p4 p1 * Area p3 p4 p2 < 0) && decide (Area p1 p2 p3 * Area p1 p2 p4 < 0)) ||
    onSeg p3 p4 p1 || onSeg p3 p4 p2 || onSeg p1 p2 p3 || onSeg p1 p2 p4

/-- The polygon is simple: two edges that are not neighbours have no point in common, and
two neighbouring edges do not fold back onto each other. -/
def isSimple (P : Polygon) : Bool :=
  (List.range P.length).all fun (a : Nat) =>
    (List.range P.length).all fun (b : Nat) =>
      if a = b then true
      else if (a + 1) % P.length = b then
        !(decide (Area (At (a : Int) P) (At (b : Int) P) (At ((b : Int) + 1) P) = 0) &&
          decide (((At (a : Int) P).x - (At (b : Int) P).x) *
              ((At ((b : Int) + 1) P).x - (At (b : Int) P).x) +
            ((At (a : Int) P).y - (At (b : Int) P).y) *
              ((At ((b : Int) + 1) P).y - (At (b : Int) P).y) > 0))
      else if (b + 1) % P.length = a then true
      else !segmentsMeet (At (a : Int) P) (At ((a : Int) + 1) P) (At (b : Int) P)
        (At ((b : Int) + 1) P)

/-- The precondition on inputs: at least 3 pairwise-distinct vertices, simple,
counter-clockwise. -/
def validInput (P : Polygon) : Bool :=
  decide (3 ≤ P.length) && decide P.Nodup && isSimple P && decide (0 < shoelace2 P)

/-- A strictly convex counter-clockwise 12-gon with integer vertices. -/
def dodecagon : Polygon :=
  [⟨4, 0⟩, ⟨6, 1⟩, ⟨7, 2⟩, ⟨8, 4⟩, ⟨7, 6⟩, ⟨6, 7⟩, ⟨4, 8⟩, ⟨2, 7⟩, ⟨1, 6⟩, ⟨0, 4⟩, ⟨1, 2⟩,
    ⟨2, 1⟩]

/-- The index expression of `At`: `i < 0 ? s - 1 - ((-i - 1) % s) : i % s`. -/
def AtIndex (i s : Int) : Int :=
  if i < 0 then s - 1 - (Int.tmod (-i - 1) s) else Int.tmod i s

/-- The local `det` of the four-point `LineIntersect`. -/
def lineDet (p1 p2 q1 q2 : Point) : ℚ :=
  (p2.y - p1.y) * (q1.x - q2.x) - (q2.y - q1.y) * (p1.x - p2.x)

/-- The local `denom` of the seven-argument `LineIntersect`. -/
def segDenom (point1 point2 point3 point4 : Point) : ℚ :=
  ((point4.y - point3.y) * (point2.x - point1.x)) -
    ((point4.x - point3.x) * (point2.y - point1.y))

/-- The local `ua` of the seven-argument `LineIntersect`, as computed past the parallel
test. -/
def segUa (point1 point2 point3 point4 : Point) : ℚ :=
  (((point4.x - point3.x) * (point1.y - point3.y)) -
      ((point4.y - point3.y) * (point1.x - point3.x))) *
    (1 / segDenom point1 point2 point3 point4)

/-- The local `ub` of the seven-argument `LineIntersect`. -/
def segUb (point1 point2 point3 point4 : Point) : ℚ :=
  (((point2.x - point1.x) * (point1.y - point3.y)) -
      ((point2.y - point1.y) * (point1.x - point3.x))) *
    (1 / segDenom point1 point2 point3 point4)

/-- The local-orientation test of `CanSee` at vertex `i` against vertex `j`: true when
`CanSee` returns false on account of the angle at `i`. -/
def CanSeeGate (i j : Int) (vertices : Polygon) : Bool :=
  if Reflex i vertices then
    LeftOn (At i vertices) (At (i - 1) vertices) (At j vertices) &&
      RightOn (At i vertices) (At (i + 1) vertices) (At j vertices)
  else
    RightOn (At i vertices) (At (i + 1) vertices) (At j vertices) ||
      LeftOn (At i vertices) (At (i - 1) vertices) (At j vertices)

/-- The edge loop of `CanSee`: no edge outside the skipped ones meets the segment. -/
def CanSeeEdges (eps : ℚ) (i j : Int) (vertices : Polygon) : Bool :=
  (List.range vertices.length).all fun (kn : Nat) =>
    if Int.tmod ((kn : Int) + 1) vertices.length = i || (kn : Int) = i ||
        Int.tmod ((kn : Int) + 1) vertices.length = j || (kn : Int) = j then true
    else !(LineIntersect5 eps (At i vertices) (At j vertices) (At (kn : Int) vertices)
            (At ((kn : Int) + 1) vertices)).1

/-- The point `x` lies on the closed segment between `a` and `b`. -/
def OnSegment (a b x : Point) : Prop :=
  ∃ t : ℚ, 0 ≤ t ∧ t ≤ 1 ∧ x.x = a.x + t * (b.x - a.x) ∧ x.y = a.y + t * (b.y - a.y)

/-- The lower intersection was set by the search loop: at `j = lowerIndex` the gate of
the lower test held and `lowerInt` is the point computed there. -/
def lowerFound (eps : ℚ) (i : Int) (vertices : Polygon) (st : Search) : Prop :=
  Left (At (i - 1) vertices) (At i vertices) (At st.lowerIndex vertices) = true ∧
  RightOn (At (i - 1) vertices) (At i vertices) (At (st.lowerIndex - 1) vertices) = true ∧
  st.lowerInt = LineIntersect eps (At (i - 1) vertices) (At i vertices)
    (At st.lowerIndex vertices) (At (st.lowerIndex - 1) vertices)

/-- The upper intersection was set by the search loop: at `j = upperIndex` the gate of
the upper test held and `upperInt` is the point computed there. -/
def upperFound (eps : ℚ) (i : Int) (vertices : Polygon) (st : Search) : Prop :=
  Left (At (i + 1) vertices) (At i vertices) (At (st.upperIndex + 1) vertices) = true ∧
  RightOn (At (i + 1) vertices) (At i vertices) (At st.upperIndex vertices) = true ∧
  st.upperInt = LineIntersect eps (At (i + 1) vertices) (At i vertices)
    (At st.upperIndex vertices) (At (st.upperIndex + 1) vertices)

/-- The first `if` of the loop body (the lower test) as a state update. -/
def searchLower (eps : ℚ) (i : Int) (vertices : Polygon) (st : Search) (j : Int) : Search :=
  if Left (At (i - 1) vertices) (At i vertices) (At j vertices) &&
      RightOn (At (i - 1) vertices) (At i vertices) (At (j - 1) vertices) then
    let p := LineIntersect eps (At (i - 1) vertices) (At i vertices) (At j vertices)
      (At (j - 1) vertices)
    if Right (At (i + 1) vertices) (At i vertices) p then
      let d := SquareDist (At i vertices) p
      if d < st.lowerDist then
        { st with lowerDist := d, lowerInt := p, lowerIndex := j }
      else st
    else st
  else st

/-- The second `if` of the loop body (the upper test) as a state update. -/
def searchUpper (eps : ℚ) (i : Int) (vertices : Polygon) (st : Search) (j : Int) : Search :=
  if Left (At (i + 1) vertices) (At i vertices) (At (j + 1) vertices) &&
      RightOn (At (i + 1) vertices) (At i vertices) (At j vertices) then
    let p := LineIntersect eps (At (i + 1) vertices) (At i vertices) (At j vertices)
      (At (j + 1) vertices)
    if Left (At (i - 1) vertices) (At i vertices) p then
      let d := SquareDist (At i vertices) p
      if d < st.upperDist then
        { st with upperDist := d, upperIndex := j, upperInt := p }
      else st
    else st
  else st

/-- A simple counter-clockwise pentagon with integer vertices whose candidate range at the
reflex vertex 2 wraps past the last index: `lowerIndex = 4`, `upperIndex = 0`. -/
def wrapPentagon : Polygon := [⟨1, 3⟩, ⟨0, 1⟩, ⟨1, 1⟩, ⟨3, 0⟩, ⟨4, 4⟩]

/-! ## The recursion: unfolding and fuel -/

theorem TriangulatePolygon_reflex (maxV : Nat) (eps : ℚ) (fuel : Nat) (P : Polygon) (i : Nat)
    (h : firstReflex P = some i) :
    TriangulatePolygon maxV eps (fuel + 1) P =
      (TriangulatePolygon maxV eps fuel (reflexSplit eps i P).1).bind fun lower =>
        (TriangulatePolygon maxV eps fuel (reflexSplit eps i P).2).bind fun upper =>
          some (lower ++ upper) := by
  simp only [TriangulatePolygon, h]

theorem TriangulatePolygon_oversized (maxV : Nat) (eps : ℚ) (fuel : Nat) (P : Polygon)
    (h : firstReflex P = none) (hn : P.length > maxV) :
    TriangulatePolygon maxV eps (fuel + 1) P =
      (TriangulatePolygon maxV eps fuel (convexSplit P).1).bind fun lower =>
        (TriangulatePolygon maxV eps fuel (convexSplit P).2).bind fun upper =>
          some (lower ++ upper) := by
  simp only [TriangulatePolygon, h, hn, if_true]

theorem TriangulatePolygon_convex (maxV : Nat) (eps : ℚ) (fuel : Nat) (P : Polygon)
    (h : firstReflex P = none) (hn : ¬ P.length > maxV) :
    TriangulatePolygon maxV eps (fuel + 1) P = some [P] := by
  simp only [TriangulatePolygon, h, hn, if_false]

/-- More fuel never changes a result that was already reached. -/
theorem TriangulatePolygon_succ (maxV : Nat) (eps : ℚ) :
    ∀ (fuel : Nat) (P : Polygon) (out : List Polygon),
      TriangulatePolygon maxV eps fuel P = some out →
      TriangulatePolygon maxV eps (fuel + 1) P = some out := by
  intro fuel
  induction fuel with
  | zero => intro P out h; simp [TriangulatePolygon] at h
  | succ k ih =>
    intro P out h
    cases hr : firstReflex P with
    | some i =>
      rw [TriangulatePolygon_reflex _ _ _ _ _ hr] at h ⊢
      cases hl : TriangulatePolygon maxV eps k (reflexSplit eps i P).1 with
      | none => simp [hl] at h
      | some l =>
        cases hu : TriangulatePolygon maxV eps k (reflexSplit eps i P).2 with
        | none => simp [hl, hu] at h
        | some u =>
          simp only [hl, hu, Option.bind] at h
          simp only [ih _ _ hl, ih _ _ hu, Option.bind]
          exact h
    | none =>
      by_cases hn : P.length > maxV
      · rw [TriangulatePolygon_oversized _ _ _ _ hr hn] at h ⊢
        cases hl : TriangulatePolygon maxV eps k (convexSplit P).1 with
        | none => simp [hl] at h
        | some l =>
          cases hu : TriangulatePolygon maxV eps k (convexSplit P).2 with
          | none => simp [hl, hu] at h
          | some u =>
            simp only [hl, hu, Option.bind] at h
            simp only [ih _ _ hl, ih _ _ hu, Option.bind]
            exact h
      · rw [TriangulatePolygon_convex _ _ _ _ hr hn] at h ⊢
        exact h

theorem TriangulatePolygon_mono (maxV : Nat) (eps : ℚ) (P : Polygon) (out : List Polygon)
    (fuel : Nat) (h : TriangulatePolygon maxV eps fuel P = some out) :
    ∀ k, TriangulatePolygon maxV eps (fuel + k) P = some out := by
  intro k
  induction k with
  | zero => exact h
  | succ k ih => exact TriangulatePolygon_succ maxV eps _ _ _ ih

/-- When the two halves of a split return, so does the parent, with the two results
concatenated. -/
theorem bind_returns (maxV : Nat) (eps : ℚ) (L U : Polygon) (out : List Polygon) :
    (∃ fuel, (TriangulatePolygon maxV eps fuel L).bind (fun lower =>
        (TriangulatePolygon maxV eps fuel U).bind fun upper => some (lower ++ upper)) = some out) ↔
    ∃ l u, (∃ f, TriangulatePolygon maxV eps f L = some l) ∧
      (∃ f, TriangulatePolygon maxV eps f U = some u) ∧ out = l ++ u := by
  constructor
  · rintro ⟨fuel, h⟩
    cases hl : TriangulatePolygon maxV eps fuel L with
    | none => simp [hl] at h
    | some l =>
      cases hu : TriangulatePolygon maxV eps fuel U with
      | none => simp [hl, hu] at h
      | some u =>
        simp only [hl, hu, Option.bind, Option.some.injEq] at h
        exact ⟨l, u, ⟨fuel, hl⟩, ⟨fuel, hu⟩, h.symm⟩
  · rintro ⟨l, u, ⟨f1, h1⟩, ⟨f2, h2⟩, rfl⟩
    refine ⟨f1 + f2, ?_⟩
    have e1 := TriangulatePolygon_mono maxV eps L l f1 h1 f2
    have e2 := TriangulatePolygon_mono maxV eps U u f2 h2 f1
    rw [Nat.add_comm f2 f1] at e2
    simp only [e1, e2, Option.bind]

/-! ## What is emitted -/

theorem firstReflex_eq_none (P : Polygon) :
    firstReflex P = none ↔ ∀ i : Nat, i < P.length → Reflex i P = false := by
  unfold firstReflex
  rw [List.find?_eq_none]
  constructor
  · intro h i hi
    have := h i (List.mem_range.mpr hi)
    simpa using this
  · intro h i hi
    have := h i (List.mem_range.mp hi)
    simp [this]

/-- Every emitted polygon went through the convex branch: the scan found no reflex
vertex in it and its size is within the cap. -/
theorem emitted_convex_small (maxV : Nat) (eps : ℚ) :
    ∀ (fuel : Nat) (P : Polygon) (out : List Polygon),
      TriangulatePolygon maxV eps fuel P = some out →
      ∀ Q ∈ out, firstReflex Q = none ∧ Q.length ≤ maxV := by
  intro fuel
  induction fuel with
  | zero => intro P out h; simp [TriangulatePolygon] at h
  | succ k ih =>
    intro P out h Q hQ
    have key : ∀ L U : Polygon,
        ((TriangulatePolygon maxV eps k L).bind fun lower =>
          (TriangulatePolygon maxV eps k U).bind fun upper => some (lower ++ upper)) = some out →
        firstReflex Q = none ∧ Q.length ≤ maxV := by
      intro L U h
      cases hl : TriangulatePolygon maxV eps k L with
      | none => simp [hl] at h
      | some l =>
        cases hu : TriangulatePolygon maxV eps k U with
        | none => simp [hl, hu] at h
        | some u =>
          simp only [hl, hu, Option.bind, Option.some.injEq] at h
          subst h
          rcases List.mem_append.mp hQ with hm | hm
          · exact ih _ _ hl Q hm
          · exact ih _ _ hu Q hm
    cases hr : firstReflex P with
    | some i =>
      rw [TriangulatePolygon_reflex _ _ _ _ _ hr] at h
      exact key _ _ h
    | none =>
      by_cases hn : P.length > maxV
      · rw [TriangulatePolygon_oversized _ _ _ _ hr hn] at h
        exact key _ _ h
      · rw [TriangulatePolygon_convex _ _ _ _ hr hn] at h
        simp only [Option.some.injEq] at h
        subst h
        simp only [List.mem_singleton] at hQ
        subst hQ
        exact ⟨hr, Nat.le_of_not_gt hn⟩

/-- C2. Convexity of the output: when `Decompose` returns on `P`, no returned polygon `Q`
has an index `i` in `[0, |Q|)` with `Area(At(i-1,Q), At(i,Q), At(i+1,Q)) < 0`. -/
theorem C2_output_has_no_reflex_vertex (fuel : Nat) (P : Polygon) (out : List Polygon)
    (h : Decompose fuel P = some out) :
    ∀ Q ∈ out, ∀ i : Nat, i < Q.length →
      ¬ (Area (At ((i : Int) - 1) Q) (At i Q) (At ((i : Int) + 1) Q) < 0) := by
  intro Q hQ i hi
  have hnone := (emitted_convex_small _ _ fuel P out h Q hQ).1
  have := (firstReflex_eq_none Q).mp hnone i hi
  simpa [Reflex, RightAt, Right] using this

/-- The two polygons returned for the L-shape have no reflex vertex. -/
theorem C2_witness :
    Decompose 2 lShape = some [[⟨2, 2⟩, ⟨2, 4⟩, ⟨0, 4⟩, ⟨0, 0⟩], [⟨0, 0⟩, ⟨4, 0⟩, ⟨4, 2⟩, ⟨2, 2⟩]] ∧
    ∀ Q ∈ [[(⟨2, 2⟩ : Point), ⟨2, 4⟩, ⟨0, 4⟩, ⟨0, 0⟩], [⟨0, 0⟩, ⟨4, 0⟩, ⟨4, 2⟩, ⟨2, 2⟩]],
      ∀ i : Nat, i < Q.length →
        ¬ (Area (At ((i : Int) - 1) Q) (At i Q) (At ((i : Int) + 1) Q) < 0) :=
  ⟨by decide!, C2_output_has_no_reflex_vertex 2 lShape _ (by decide!)⟩

/-- C3. Vertex cap: when `Decompose` returns on `P`, every returned polygon has at most
`MAX_VERTICES` (8) vertices. -/
theorem C3_output_within_vertex_cap (fuel : Nat) (P : Polygon) (out : List Polygon)
    (h : Decompose fuel P = some out) :
    ∀ Q ∈ out, Q.length ≤ MAX_VERTICES :=
  fun Q hQ => (emitted_convex_small _ _ fuel P out h Q hQ).2

/-- The two polygons returned for the pentagon are within the cap. -/
theorem C3_witness :
    Decompose 2 pentagon =
      some [[⟨2, 3⟩, ⟨4, 0⟩, ⟨4, 4⟩, ⟨2, 4⟩], [⟨0, 4⟩, ⟨0, 0⟩, ⟨2, 3⟩, ⟨2, 4⟩]] ∧
    ∀ Q ∈ [[(⟨2, 3⟩ : Point), ⟨4, 0⟩, ⟨4, 4⟩, ⟨2, 4⟩], [⟨0, 4⟩, ⟨0, 0⟩, ⟨2, 3⟩, ⟨2, 4⟩]],
      Q.length ≤ MAX_VERTICES :=
  ⟨by decide!, C3_output_within_vertex_cap 2 pentagon _ (by decide!)⟩

/-- C4. Idempotence on convex input: a polygon with at most `MAX_VERTICES` vertices and no
index `i` with `Area(At(i-1), At(i), At(i+1)) < 0` is returned as the one-element list
`[P]`, vertices in their original order, whatever positive budget the recursion is given. -/
theorem C4_convex_input_returned_unchanged (P : Polygon) (hsize : P.length ≤ MAX_VERTICES)
    (hconv : ∀ i : Nat, i < P.length →
      ¬ (Area (At ((i : Int) - 1) P) (At i P) (At ((i : Int) + 1) P) < 0))
    (fuel : Nat) :
    Decompose (fuel + 1) P = some [P] := by
  have hnone : firstReflex P = none := by
    rw [firstReflex_eq_none]
    intro i hi
    simpa [Reflex, RightAt, Right] using hconv i hi
  exact TriangulatePolygon_convex _ _ _ _ hnone (Nat.not_lt.mpr hsize)

/-- The square of scenario 1 is returned as the single output polygon. -/
theorem C4_witness :
    square.length ≤ MAX_VERTICES ∧
    (∀ i : Nat, i < square.length →
      ¬ (Area (At ((i : Int) - 1) square) (At i square) (At ((i : Int) + 1) square) < 0)) ∧
    Decompose 1 [⟨0, 0⟩, ⟨4, 0⟩, ⟨4, 4⟩, ⟨0, 4⟩] = some [[⟨0, 0⟩, ⟨4, 0⟩, ⟨4, 4⟩, ⟨0, 4⟩]] :=
  ⟨by decide, by decide!,
    C4_convex_input_returned_unchanged square (by decide) (by decide!) 0⟩

/-! ## Scenario 2: the L-shaped hexagon -/

/-- C6. L-shape scenario: the hexagon `[(0,0),(4,0),(4,2),(2,2),(2,4),(0,4)]` has its only
reflex vertex at index 3; the split there is the diagonal from vertex 3 to vertex 0
(`bestIndex = 0`), and `Decompose` returns exactly the two polygons
`[(2,2),(2,4),(0,4),(0,0)]` and `[(0,0),(4,0),(4,2),(2,2)]`, in that order, neither with a
reflex vertex, with shoelace areas summing to 12. -/
theorem C6_lShape_two_convex_pieces (fuel : Nat) :
    (List.range lShape.length).filter (fun (i : Nat) => Reflex (i : Int) lShape) = [3] ∧
    bestIndex EPSILON 3 (search EPSILON 3 lShape).lowerIndex
      (search EPSILON 3 lShape).upperIndex lShape = 0 ∧
    reflexSplit EPSILON 3 lShape = (Copy 3 0 lShape, Copy 0 3 lShape) ∧
    Decompose (fuel + 2) lShape =
      some [[⟨2, 2⟩, ⟨2, 4⟩, ⟨0, 4⟩, ⟨0, 0⟩], [⟨0, 0⟩, ⟨4, 0⟩, ⟨4, 2⟩, ⟨2, 2⟩]] ∧
    (∀ Q ∈ [[(⟨2, 2⟩ : Point), ⟨2, 4⟩, ⟨0, 4⟩, ⟨0, 0⟩], [⟨0, 0⟩, ⟨4, 0⟩, ⟨4, 2⟩, ⟨2, 2⟩]],
      ∀ i : Nat, i < Q.length → Reflex i Q = false) ∧
    totalArea [[⟨2, 2⟩, ⟨2, 4⟩, ⟨0, 4⟩, ⟨0, 0⟩], [⟨0, 0⟩, ⟨4, 0⟩, ⟨4, 2⟩, ⟨2, 2⟩]] = 12 := by
  refine ⟨by decide!, by decide!, by decide!, ?_, by decide!, by decide!⟩
  have h : Decompose 2 lShape =
      some [[⟨2, 2⟩, ⟨2, 4⟩, ⟨0, 4⟩, ⟨0, 0⟩], [⟨0, 0⟩, ⟨4, 0⟩, ⟨4, 2⟩, ⟨2, 2⟩]] := by decide!
  have := TriangulatePolygon_mono MAX_VERTICES EPSILON lShape _ 2 h fuel
  rw [Nat.add_comm] at this
  exact this

/-! ## Circular indexing, `Copy` and the shoelace sum -/

theorem At_emod (P : Polygon) (hn : 0 < P.length) (i : Int) :
    At i P = P.getD (i % (P.length : Int)).toNat Point.zero := by
  have hs : (0 : Int) < (P.length : Int) := by exact_mod_cast hn
  unfold At
  by_cases hi : i < 0
  · simp only [hi, if_true]
    have h1 : Int.tmod (-i - 1) (P.length : Int) = (-i - 1) % (P.length : Int) :=
      Int.tmod_eq_emod (by omega) (le_of_lt hs)
    rw [h1]
    congr 2
    have hr0 := Int.emod_nonneg (-i - 1) (ne_of_gt hs)
    have hr1 := Int.emod_lt_of_pos (-i - 1) hs
    have hd := Int.emod_add_ediv (-i - 1) (P.length : Int)
    have : i = ((P.length : Int) - 1 - (-i - 1) % (P.length : Int)) +
        (P.length : Int) * (-((-i - 1) / (P.length : Int)) - 1) := by
      linear_combination hd
    conv_rhs => rw [this]
    rw [Int.add_mul_emod_self_left]
    exact (Int.emod_eq_of_lt (by omega) (by omega)).symm
  · simp only [hi, if_false]
    rw [Int.tmod_eq_emod (by omega) (le_of_lt hs)]

theorem At_natCast (P : Polygon) (k : Nat) (hk : k < P.length) :
    At (k : Int) P = P.getD k Point.zero := by
  rw [At_emod P (by omega)]
  congr 1
  rw [Int.emod_eq_of_lt (by omega) (by exact_mod_cast hk)]
  simp

theorem At_add_length (P : Polygon) (hn : 0 < P.length) (i : Int) :
    At (i + (P.length : Int)) P = At i P := by
  rw [At_emod P hn, At_emod P hn, Int.add_emod_self]

theorem raiseIndex_spec (n i : Int) (hn : 0 < n) :
    ∀ (fuel : Nat) (j : Int), (i - j).toNat ≤ fuel →
      i ≤ raiseIndex n i fuel j ∧ (raiseIndex n i fuel j - j) % n = 0 ∧
      (j < i → raiseIndex n i fuel j < i + n) ∧ (i ≤ j → raiseIndex n i fuel j = j) := by
  intro fuel
  induction fuel with
  | zero =>
    intro j hj
    have : i ≤ j := by omega
    simp [raiseIndex, this]
  | succ k ih =>
    intro j hj
    by_cases hlt : j < i
    · have hk : (i - (j + n)).toNat ≤ k := by omega
      obtain ⟨h1, h2, h3, h4⟩ := ih (j + n) hk
      simp only [raiseIndex, hlt, if_true]
      refine ⟨h1, ?_, ?_, ?_⟩
      · have : raiseIndex n i k (j + n) - j = (raiseIndex n i k (j + n) - (j + n)) + n := by ring
        rw [this, Int.add_emod_self]; exact h2
      · intro _
        by_cases h5 : j + n < i
        · exact h3 h5
        · rw [h4 (by omega)]; omega
      · intro h6; omega
    · simp only [raiseIndex, hlt, if_false]
      refine ⟨by omega, by simp, ?_, ?_⟩
      · intro h; exact h.elim
      · intro _; trivial

theorem Copy_of_le (P : Polygon) (i j : Int) (h : i ≤ j) :
    Copy i j P = (List.range (j + 1 - i).toNat).map fun (k : Nat) => At (i + (k : Int)) P := by
  have h0 : (i - j).toNat = 0 := by omega
  simp only [Copy, h0, raiseIndex]

theorem Copy_of_lt (P : Polygon) (hn : 0 < P.length) (i j : Int) (h : j < i)
    (h2 : i ≤ j + P.length) :
    Copy i j P =
      (List.range (j + P.length + 1 - i).toNat).map fun (k : Nat) => At (i + (k : Int)) P := by
  obtain ⟨f, hf⟩ : ∃ f, (i - j).toNat = f + 1 := ⟨(i - j).toNat - 1, by omega⟩
  have hs : (0 : Int) < (P.length : Int) := by exact_mod_cast hn
  have := (raiseIndex_spec (P.length : Int) i hs f (j + P.length) (by omega)).2.2.2 h2
  simp only [Copy, hf, raiseIndex, h, if_true, this]

theorem At_map_range (f : Nat → Point) (m k : Nat) (hk : k < m) :
    At (k : Int) ((List.range m).map f) = f k := by
  rw [At_natCast _ _ (by simpa using hk)]
  simp [List.getD_eq_getElem?_getD, hk]

theorem shoelace2_map_range (f : Nat → Point) (m : Nat) :
    shoelace2 ((List.range (m + 1)).map f) =
      ((List.range m).map fun k => cross (f k) (f (k + 1))).sum + cross (f m) (f 0) := by
  unfold shoelace2
  have hlen : ((List.range (m + 1)).map f).length = m + 1 := by simp
  rw [hlen, List.range_succ, List.map_append, List.sum_append]
  congr 1
  · congr 1
    apply List.map_congr_left
    intro k hk
    have hk' : k < m := List.mem_range.mp hk
    have e1 := At_map_range f (m + 1) k (by omega)
    have e2 := At_map_range f (m + 1) (k + 1) (by omega)
    rw [← List.range_succ]
    push_cast at e2
    rw [e1, e2, cross]
  · have e1 := At_map_range f (m + 1) m (by omega)
    have e2 := At_map_range f (m + 1) 0 (by omega)
    have e3 := At_add_length ((List.range (m + 1)).map f) (by simp) 0
    rw [hlen] at e3
    push_cast at e3 e2
    rw [← List.range_succ]
    simp only [List.map_cons, List.map_nil, List.sum_cons, List.sum_nil, add_zero]
    rw [e1, show ((m : Int) + 1) = 0 + ((m : Int) + 1) by ring, e3, e2, cross]

theorem cross_antisymm (a b : Point) : cross a b + cross b a = 0 := by
  simp only [cross]; ring

theorem Area_eq_cross (a b c : Point) : Area a b c = cross a b + cross b c + cross c a := by
  simp only [Area, cross]; ring

theorem Area_cyclic (a b c : Point) : Area a b c = Area b c a := by
  simp only [Area]; ring

theorem chain_succ (P : Polygon) (a : Int) (m : Nat) :
    chain P a (m + 1) = chain P a m + cross (At (a + (m : Int)) P) (At (a + (m : Int) + 1) P) := by
  simp [chain, List.range_succ]

theorem chain_add (P : Polygon) (a : Int) (m m' : Nat) :
    chain P a (m + m') = chain P a m + chain P (a + (m : Int)) m' := by
  induction m' with
  | zero => simp [chain]
  | succ k ih =>
    rw [← Nat.add_assoc, chain_succ, chain_succ, ih]
    push_cast
    rw [← add_assoc a, add_assoc]

theorem At_congr (P : Polygon) (hn : 0 < P.length) (a b : Int)
    (h : (a - b) % (P.length : Int) = 0) : At a P = At b P := by
  rw [At_emod P hn, At_emod P hn, Int.emod_eq_emod_iff_emod_sub_eq_zero.mpr h]

theorem chain_congr (P : Polygon) (hn : 0 < P.length) (a b : Int) (m : Nat)
    (h : (a - b) % (P.length : Int) = 0) : chain P a m = chain P b m := by
  unfold chain
  congr 1
  apply List.map_congr_left
  intro k _
  rw [At_congr P hn (a + k) (b + k) (by rw [← h]; congr 1; ring),
    At_congr P hn (a + k + 1) (b + k + 1) (by rw [← h]; congr 1; ring)]

theorem shoelace2_eq_chain (P : Polygon) : shoelace2 P = chain P 0 P.length := by
  simp [shoelace2, chain, cross]

theorem chain_full (P : Polygon) (hn : 0 < P.length) (a : Int) :
    chain P a P.length = shoelace2 P := by
  have hs : (0 : Int) < (P.length : Int) := by exact_mod_cast hn
  have hr0 := Int.emod_nonneg a (ne_of_gt hs)
  have hr1 := Int.emod_lt_of_pos a hs
  obtain ⟨r, hr⟩ : ∃ r : Nat, (r : Int) = a % (P.length : Int) := ⟨(a % P.length).toNat, by omega⟩
  have hrn : r ≤ P.length := by omega
  have e0 : chain P a P.length = chain P r P.length :=
    chain_congr P hn a r _ (by rw [hr]; simp [Int.sub_emod])
  have e1 : chain P r P.length = chain P r (P.length - r) + chain P (r + ((P.length - r : Nat) : Int)) r := by
    rw [← chain_add]; congr 1; omega
  have e2 : chain P (r + ((P.length - r : Nat) : Int)) r = chain P 0 r :=
    chain_congr P hn _ _ _ (by
      have : (r : Int) + ((P.length - r : Nat) : Int) - 0 = (P.length : Int) := by omega
      rw [this]; simp)
  have e3 : chain P 0 P.length = chain P 0 r + chain P (0 + (r : Int)) (P.length - r) := by
    rw [← chain_add]; congr 1; omega
  rw [e0, e1, e2, shoelace2_eq_chain, e3, zero_add, add_comm]

theorem shoelace2_chain_closed (P : Polygon) (i : Int) (m : Nat) :
    shoelace2 ((List.range (m + 1)).map fun (k : Nat) => At (i + (k : Int)) P) =
      chain P i m + cross (At (i + (m : Int)) P) (At i P) := by
  rw [shoelace2_map_range]
  simp only [chain, Nat.cast_add, Nat.cast_one, Nat.cast_zero, add_zero, add_assoc]

theorem shoelace2_chain_snoc (P : Polygon) (i : Int) (m : Nat) (p : Point) :
    shoelace2 (((List.range (m + 1)).map fun (k : Nat) => At (i + (k : Int)) P) ++ [p]) =
      chain P i m + cross (At (i + (m : Int)) P) p + cross p (At i P) := by
  have hl : ((List.range (m + 1)).map fun (k : Nat) => At (i + (k : Int)) P) ++ [p] =
      (List.range (m + 1 + 1)).map fun (k : Nat) => if k ≤ m then At (i + (k : Int)) P else p := by
    rw [List.range_succ (m + 1), List.map_append]
    congr 1
    · apply List.map_congr_left
      intro k hk
      have : k ≤ m := by have := List.mem_range.mp hk; omega
      simp [this]
    · simp
  rw [hl, shoelace2_map_range, List.range_succ, List.map_append, List.sum_append]
  have hc : ((List.range m).map fun (k : Nat) =>
      cross (if k ≤ m then At (i + (k : Int)) P else p)
        (if k + 1 ≤ m then At (i + ((k + 1 : Nat) : Int)) P else p)) =
      (List.range m).map fun (k : Nat) => cross (At (i + (k : Int)) P) (At (i + (k : Int) + 1) P) := by
    apply List.map_congr_left
    intro k hk
    have : k < m := List.mem_range.mp hk
    have h1 : k ≤ m := by omega
    have h2 : k + 1 ≤ m := by omega
    simp only [h1, h2, if_true]
    push_cast
    rw [add_assoc]
  rw [hc]
  simp [chain]

theorem shoelace2_diagonal (P : Polygon) (i b : Int) (hin : i < P.length)
    (hb0 : 0 ≤ b) (hne : b ≠ i) (hb : b ≤ i + P.length) :
    shoelace2 (Copy i b P) + shoelace2 (Copy b i P) = shoelace2 P := by
  have hn : 0 < P.length := by omega
  rcases lt_or_gt_of_ne hne with hlt | hgt
  · -- b < i
    obtain ⟨m', hm'⟩ : ∃ m' : Nat, (m' : Int) = i - b := ⟨(i - b).toNat, by omega⟩
    obtain ⟨m, hm⟩ : ∃ m : Nat, (m : Int) = b + P.length - i := ⟨(b + P.length - i).toNat, by omega⟩
    rw [Copy_of_le P b i (le_of_lt hlt), Copy_of_lt P hn i b hlt (by omega)]
    rw [show (i + 1 - b).toNat = m' + 1 by omega, show (b + P.length + 1 - i).toNat = m + 1 by omega]
    rw [shoelace2_chain_closed, shoelace2_chain_closed]
    have e1 : At (i + (m : Int)) P = At b P := At_congr P hn _ _ (by
      rw [hm, show i + (b + (P.length : Int) - i) - b = (P.length : Int) by ring]; simp)
    have e2 : At (b + (m' : Int)) P = At i P := by rw [hm']; congr 1; ring
    have e3 : chain P b m' = chain P (i + (m : Int)) m' := chain_congr P hn _ _ _ (by
      rw [hm, show b - (i + (b + (P.length : Int) - i)) = -(P.length : Int) by ring]; simp)
    have e4 : m + m' = P.length := by omega
    rw [e1, e2, e3, ← chain_full P hn i, ← e4, chain_add]
    linear_combination cross_antisymm (At b P) (At i P)
  · -- i < b
    obtain ⟨m, hm⟩ : ∃ m : Nat, (m : Int) = b - i := ⟨(b - i).toNat, by omega⟩
    obtain ⟨m', hm'⟩ : ∃ m' : Nat, (m' : Int) = i + P.length - b := ⟨(i + P.length - b).toNat, by omega⟩
    rw [Copy_of_le P i b (le_of_lt hgt), Copy_of_lt P hn b i hgt hb]
    rw [show (b + 1 - i).toNat = m + 1 by omega, show (i + P.length + 1 - b).toNat = m' + 1 by omega]
    rw [shoelace2_chain_closed, shoelace2_chain_closed]
    have e1 : At (i + (m : Int)) P = At b P := by rw [hm]; congr 1; ring
    have e2 : At (b + (m' : Int)) P = At i P := At_congr P hn _ _ (by
      rw [hm', show b + (i + (P.length : Int) - b) - i = (P.length : Int) by ring]; simp)
    have e3 : chain P b m' = chain P (i + (m : Int)) m' := by rw [hm]; congr 1; ring
    have e4 : m + m' = P.length := by omega
    rw [e1, e2, e3, ← chain_full P hn i, ← e4, chain_add]
    linear_combination cross_antisymm (At b P) (At i P)

theorem chain_one (P : Polygon) (a : Int) :
    chain P a 1 = cross (At a P) (At (a + 1) P) := by
  simp [chain, List.range_succ]

theorem shoelace2_steiner (P : Polygon) (i up low : Int) (p : Point)
    (hi0 : 0 ≤ i) (hin : i < P.length) (hu0 : 0 ≤ up) (hun : up < P.length)
    (hlow : low = up + 1 ∨ (up + 1 = P.length ∧ low = 0)) :
    shoelace2 (Copy i up P ++ [p]) + shoelace2 (Copy low i P ++ [p]) =
      shoelace2 P + Area (At up P) p (At low P) := by
  have hn : 0 < P.length := by omega
  -- `m` edges lead from `i` up to `up`, `m'` edges from `low` up to `i`
  obtain ⟨m, hm, hL⟩ : ∃ m : Nat,
      ((m : Int) = if i ≤ up then up - i else up + P.length - i) ∧
      Copy i up P = (List.range (m + 1)).map fun (k : Nat) => At (i + (k : Int)) P := by
    rcases le_or_lt i up with h | h
    · refine ⟨(up - i).toNat, ?_, ?_⟩
      · rw [if_pos h]; omega
      · rw [Copy_of_le P i up h, show (up + 1 - i).toNat = (up - i).toNat + 1 by omega]
    · refine ⟨(up + P.length - i).toNat, ?_, ?_⟩
      · rw [if_neg (not_le.mpr h)]; omega
      · rw [Copy_of_lt P hn i up h (by omega),
          show (up + P.length + 1 - i).toNat = (up + P.length - i).toNat + 1 by omega]
  obtain ⟨m', hm', hU⟩ : ∃ m' : Nat,
      ((m' : Int) = if low ≤ i then i - low else i + P.length - low) ∧
      Copy low i P = (List.range (m' + 1)).map fun (k : Nat) => At (low + (k : Int)) P := by
    rcases le_or_lt low i with h | h
    · refine ⟨(i - low).toNat, ?_, ?_⟩
      · rw [if_pos h]; omega
      · rw [Copy_of_le P low i h, show (i + 1 - low).toNat = (i - low).toNat + 1 by omega]
    · refine ⟨(i + P.length - low).toNat, ?_, ?_⟩
      · rw [if_neg (not_le.mpr h)]; omega
      · rw [Copy_of_lt P hn low i h (by omega),
          show (i + P.length + 1 - low).toNat = (i + P.length - low).toNat + 1 by omega]
  have hsum : m + (1 + m') = P.length := by
    split_ifs at hm hm' <;> omega
  have hmod : ∀ x : Int, x = 0 ∨ x = (P.length : Int) ∨ x = -(P.length : Int) →
      x % (P.length : Int) = 0 := by
    rintro x (h | h | h) <;> simp [h]
  have e1 : At (i + (m : Int)) P = At up P := At_congr P hn _ _ (hmod _ (by
    split_ifs at hm <;> omega))
  have e2 : At (low + (m' : Int)) P = At i P := At_congr P hn _ _ (hmod _ (by
    split_ifs at hm' <;> omega))
  have e3 : At (i + (m : Int) + 1) P = At low P := At_congr P hn _ _ (hmod _ (by
    split_ifs at hm <;> omega))
  have e4 : chain P (i + (m : Int) + ((1 : Nat) : Int)) m' = chain P low m' :=
    chain_congr P hn _ _ _ (hmod _ (by split_ifs at hm <;> omega))
  rw [hL, hU, shoelace2_chain_snoc, shoelace2_chain_snoc, e1, e2, ← chain_full P hn i, ← hsum,
    chain_add, chain_add, chain_one, e1, e3, e4, Area_eq_cross]
  linear_combination cross_antisymm p (At i P) - cross_antisymm (At up P) (At low P)

/-! ## The search indices stay inside the polygon -/

theorem foldl_invariant {α β : Type} (inv : α → Prop) (f : α → β → α) :
    ∀ (l : List β), (∀ a b, b ∈ l → inv a → inv (f a b)) → ∀ a, inv a → inv (l.foldl f a) := by
  intro l
  induction l with
  | nil => intro _ a ha; exact ha
  | cons b t ih =>
    intro h a ha
    rw [List.foldl_cons]
    exact ih (fun a' b' hb' ha' => h a' b' (List.mem_cons_of_mem _ hb') ha') _
      (h a b (List.mem_cons_self _ _) ha)

theorem searchStep_bounds (eps : ℚ) (i : Int) (P : Polygon) (st : Search) (j : Int)
    (hj0 : 0 ≤ j) (hjn : j < P.length)
    (h : 0 ≤ st.lowerIndex ∧ st.lowerIndex < P.length ∧ 0 ≤ st.upperIndex ∧
      st.upperIndex < P.length) :
    0 ≤ (searchStep eps i P st j).lowerIndex ∧ (searchStep eps i P st j).lowerIndex < P.length ∧
    0 ≤ (searchStep eps i P st j).upperIndex ∧
      (searchStep eps i P st j).upperIndex < P.length := by
  obtain ⟨h1, h2, h3, h4⟩ := h
  unfold searchStep
  simp only
  split_ifs <;> exact ⟨by assumption, by assumption, by assumption, by assumption⟩

theorem search_bounds (eps : ℚ) (i : Int) (P : Polygon) (hn : 0 < P.length) :
    0 ≤ (search eps i P).lowerIndex ∧ (search eps i P).lowerIndex < P.length ∧
    0 ≤ (search eps i P).upperIndex ∧ (search eps i P).upperIndex < P.length := by
  unfold search
  apply foldl_invariant
    (fun st : Search => 0 ≤ st.lowerIndex ∧ st.lowerIndex < P.length ∧ 0 ≤ st.upperIndex ∧
      st.upperIndex < P.length)
  · intro st j hj hst
    have hj' : j < P.length := List.mem_range.mp hj
    exact searchStep_bounds eps i P st j (by omega) (by exact_mod_cast hj') hst
  · have hs : (0 : Int) < (P.length : Int) := by exact_mod_cast hn
    exact ⟨le_refl _, hs, le_refl _, hs⟩

theorem firstReflex_lt (P : Polygon) (i : Nat) (h : firstReflex P = some i) : i < P.length := by
  unfold firstReflex at h
  exact List.mem_range.mp (List.mem_of_find?_eq_some h)

/-! ## Signed area along the recursion -/

theorem scoreStep_ge (eps : ℚ) (i lo : Int) (P : Polygon) (b : Best) (j : Int)
    (hj : lo ≤ j) (hb : lo ≤ b.bestIndex) : lo ≤ (scoreStep eps i P b j).bestIndex := by
  unfold scoreStep
  split_ifs <;> assumption

theorem bestIndex_ge (eps : ℚ) (i lo up : Int) (P : Polygon) :
    lo ≤ bestIndex eps i lo up P := by
  unfold bestIndex
  apply foldl_invariant (fun b : Best => lo ≤ b.bestIndex)
  · intro b k _ hb
    exact scoreStep_ge eps i lo P b _ (by omega) hb
  · exact le_refl _

theorem convexSplit_area (P : Polygon) (hn : 2 ≤ P.length) :
    shoelace2 (convexSplit P).1 + shoelace2 (convexSplit P).2 = shoelace2 P := by
  unfold convexSplit
  exact shoelace2_diagonal P 0 _ (by omega) (by omega) (by omega) (by omega)

/-- A reflex vertex sees neither itself nor its two neighbours, at any index congruent to
theirs. -/
theorem CanSee_reflex_near (eps : ℚ) (P : Polygon) (i j : Int) (hn : 0 < P.length)
    (hr : Reflex i P = true)
    (hj : (j - i) % (P.length : Int) = 0 ∨ (j - (i - 1)) % (P.length : Int) = 0 ∨
      (j - (i + 1)) % (P.length : Int) = 0) :
    CanSee eps i j P = false := by
  have hA : Area (At (i - 1) P) (At i P) (At (i + 1) P) < 0 := by
    simpa [Reflex, RightAt, Right] using hr
  have key : (LeftOn (At i P) (At (i - 1) P) (At j P) &&
      RightOn (At i P) (At (i + 1) P) (At j P)) = true := by
    rcases hj with h | h | h
    · rw [At_congr P hn j i h]
      simp [LeftOn, RightOn, Area]
    · rw [At_congr P hn j (i - 1) h]
      have e := Area_cyclic (At (i - 1) P) (At i P) (At (i + 1) P)
      simp only [LeftOn, RightOn, Bool.and_eq_true, decide_eq_true_eq]
      refine ⟨by simp [Area], ?_⟩
      rw [← e]; exact le_of_lt hA
    · rw [At_congr P hn j (i + 1) h]
      simp only [LeftOn, RightOn, Bool.and_eq_true, decide_eq_true_eq]
      refine ⟨?_, by simp [Area]⟩
      have : Area (At i P) (At (i - 1) P) (At (i + 1) P) =
          -Area (At (i - 1) P) (At i P) (At (i + 1) P) := by simp only [Area]; ring
      rw [this]; linarith
  unfold CanSee
  simp only [hr, if_true, key]

theorem scoreStep_visible (eps : ℚ) (i lo : Int) (P : Polygon) (b : Best) (j : Int)
    (hb : b.bestIndex = lo ∨ CanSee eps i b.bestIndex P = true) :
    (scoreStep eps i P b j).bestIndex = lo ∨
      CanSee eps i (scoreStep eps i P b j).bestIndex P = true := by
  unfold scoreStep
  split_ifs with h1 h2
  · right; exact h1
  · exact hb
  · exact hb

/-- The index chosen in the general case is either the default `lowerIndex` or a
candidate that passed the visibility test. -/
theorem bestIndex_default_or_visible (eps : ℚ) (i lo up : Int) (P : Polygon) :
    bestIndex eps i lo up P = lo ∨ CanSee eps i (bestIndex eps i lo up P) P = true := by
  unfold bestIndex
  apply foldl_invariant (fun b : Best => b.bestIndex = lo ∨ CanSee eps i b.bestIndex P = true)
  · intro b k _ hb
    exact scoreStep_visible eps i lo P b _ hb
  · left; rfl

theorem tmod_succ_cases (n up : Int) (hu0 : 0 ≤ up) (hun : up < n) :
    Int.tmod (up + 1) n = up + 1 ∨ (up + 1 = n ∧ Int.tmod (up + 1) n = 0) := by
  rw [Int.tmod_eq_emod (by omega) (by omega)]
  by_cases hlt : up + 1 < n
  · left; exact Int.emod_eq_of_lt (by omega) hlt
  · right
    have : up + 1 = n := by omega
    exact ⟨this, by rw [this]; simp⟩

theorem returns_iff_succ (maxV : Nat) (eps : ℚ) (P : Polygon) (out : List Polygon) :
    (∃ fuel, TriangulatePolygon maxV eps fuel P = some out) ↔
      ∃ fuel, TriangulatePolygon maxV eps (fuel + 1) P = some out := by
  constructor
  · rintro ⟨fuel, h⟩
    exact ⟨fuel, TriangulatePolygon_succ maxV eps fuel P out h⟩
  · rintro ⟨fuel, h⟩
    exact ⟨fuel + 1, h⟩

theorem returns_iff_reflex (maxV : Nat) (eps : ℚ) (P : Polygon) (i : Nat)
    (hi : firstReflex P = some i) (out : List Polygon) :
    (∃ fuel, TriangulatePolygon maxV eps fuel P = some out) ↔
      ∃ l u, (∃ f, TriangulatePolygon maxV eps f (reflexSplit eps i P).1 = some l) ∧
        (∃ f, TriangulatePolygon maxV eps f (reflexSplit eps i P).2 = some u) ∧
        out = l ++ u := by
  rw [returns_iff_succ, ← bind_returns]
  simp only [TriangulatePolygon_reflex _ _ _ _ _ hi]

theorem returns_iff_oversized (maxV : Nat) (eps : ℚ) (P : Polygon)
    (hr : firstReflex P = none) (hn : P.length > maxV) (out : List Polygon) :
    (∃ fuel, TriangulatePolygon maxV eps fuel P = some out) ↔
      ∃ l u, (∃ f, TriangulatePolygon maxV eps f (convexSplit P).1 = some l) ∧
        (∃ f, TriangulatePolygon maxV eps f (convexSplit P).2 = some u) ∧
        out = l ++ u := by
  rw [returns_iff_succ, ← bind_returns]
  simp only [TriangulatePolygon_oversized _ _ _ _ hr hn]

theorem map_range_At (P : Polygon) (a m : Nat) (h : a + m ≤ P.length) :
    ((List.range m).map fun (k : Nat) => At ((a : Int) + (k : Int)) P) = (P.drop a).take m := by
  apply List.ext_getElem
  · simp; omega
  · intro k h1 h2
    have hk : k < m := by simpa using h1
    have e := At_natCast P (a + k) (by omega)
    push_cast at e
    simp [e, List.getD_eq_getElem?_getD, List.getElem?_eq_getElem (show a + k < P.length by omega)]

theorem convexSplit_eq (P : Polygon) (hn : 2 ≤ P.length) :
    convexSplit P = (P.take (P.length / 2 + 1), P.drop (P.length / 2) ++ P.take 1) := by
  have hn0 : 0 < P.length := by omega
  have hdiv : ((P.length : Int) / 2) = ((P.length / 2 : Nat) : Int) := by norm_cast
  unfold convexSplit
  rw [hdiv]
  congr 1
  · rw [Copy_of_le P 0 _ (by omega),
      show ((P.length / 2 : Nat) + 1 - 0 : Int).toNat = P.length / 2 + 1 by omega]
    have := map_range_At P 0 (P.length / 2 + 1) (by omega)
    simpa using this
  · rw [Copy_of_lt P hn0 _ 0 (by omega) (by omega),
      show (0 + (P.length : Int) + 1 - ((P.length / 2 : Nat) : Int)).toNat =
        (P.length - P.length / 2) + 1 by omega,
      List.range_succ, List.map_append, map_range_At P _ _ (by omega)]
    congr 1
    · rw [List.take_of_length_le (by simp)]
    · have e1 : At (((P.length / 2 : Nat) : Int) + ((P.length - P.length / 2 : Nat) : Int)) P =
          At 0 P := At_congr P hn0 _ _ (by
        rw [show ((P.length / 2 : Nat) : Int) + ((P.length - P.length / 2 : Nat) : Int) - 0 =
          (P.length : Int) by omega]; simp)
      have e2 := map_range_At P 0 1 (by omega)
      simp only [List.drop_zero] at e2
      simp only [List.map_cons, List.map_nil]
      rw [e1, ← e2]
      simp [List.range_succ]

/-! ## Scenario 3: a convex 12-gon -/

/-- C9. Degenerate (Steiner) split: whenever the first reflex vertex `i` yields
`lowerIndex == (upperIndex + 1) % n`, `Decompose(P)` returns exactly the results of
`Decompose(L)` followed by those of `Decompose(U)`, where `L` is `Copy(i, upperIndex)`
followed by `m`, `U` is `Copy(lowerIndex, i)` followed by `m`, and
`m = (lowerInt + upperInt) / 2`.  For the pentagon `[(0,0),(2,3),(4,0),(4,4),(0,4)]`:
`i = 1`, `upperIndex = 3`, `lowerIndex = 4`, `lowerInt = (8/3, 4)`, `upperInt = (4/3, 4)`,
and `Decompose` returns `[[(2,3),(4,0),(4,4),(2,4)], [(0,4),(0,0),(2,3),(2,4)]]`, neither
with a reflex vertex. -/
theorem C9_steiner_split :
    (∀ (P : Polygon) (i : Nat) (out : List Polygon), firstReflex P = some i →
      (search EPSILON i P).lowerIndex =
        Int.tmod ((search EPSILON i P).upperIndex + 1) P.length →
      ((∃ fuel, Decompose fuel P = some out) ↔
        ∃ l u,
          (∃ f, Decompose f (Copy i (search EPSILON i P).upperIndex P ++
            [Point.div (Point.add (search EPSILON i P).lowerInt
              (search EPSILON i P).upperInt) 2]) = some l) ∧
          (∃ f, Decompose f (Copy (search EPSILON i P).lowerIndex i P ++
            [Point.div (Point.add (search EPSILON i P).lowerInt
              (search EPSILON i P).upperInt) 2]) = some u) ∧
          out = l ++ u)) ∧
    (firstReflex pentagon = some 1 ∧
      (search EPSILON 1 pentagon).upperIndex = 3 ∧
      (search EPSILON 1 pentagon).lowerIndex = 4 ∧
      (search EPSILON 1 pentagon).lowerInt = ⟨8 / 3, 4⟩ ∧
      (search EPSILON 1 pentagon).upperInt = ⟨4 / 3, 4⟩ ∧
      (∀ fuel : Nat, Decompose (fuel + 2) pentagon =
        some [[⟨2, 3⟩, ⟨4, 0⟩, ⟨4, 4⟩, ⟨2, 4⟩], [⟨0, 4⟩, ⟨0, 0⟩, ⟨2, 3⟩, ⟨2, 4⟩]]) ∧
      (∀ Q ∈ [[(⟨2, 3⟩ : Point), ⟨4, 0⟩, ⟨4, 4⟩, ⟨2, 4⟩], [⟨0, 4⟩, ⟨0, 0⟩, ⟨2, 3⟩, ⟨2, 4⟩]],
        ∀ i : Nat, i < Q.length → Reflex i Q = false)) := by
  constructor
  · intro P i out hi hdeg
    have h := returns_iff_reflex MAX_VERTICES EPSILON P i hi out
    have hs : reflexSplit EPSILON i P =
        (Copy i (search EPSILON i P).upperIndex P ++
            [Point.div (Point.add (search EPSILON i P).lowerInt
              (search EPSILON i P).upperInt) 2],
          Copy (search EPSILON i P).lowerIndex i P ++
            [Point.div (Point.add (search EPSILON i P).lowerInt
              (search EPSILON i P).upperInt) 2]) := by
      unfold reflexSplit
      simp only [hdeg, if_true]
    rw [hs] at h
    exact h
  · refine ⟨by decide!, by decide!, by decide!, by decide!, by decide!, ?_, by decide!⟩
    intro fuel
    have e : Decompose 2 pentagon =
        some [[⟨2, 3⟩, ⟨4, 0⟩, ⟨4, 4⟩, ⟨2, 4⟩], [⟨0, 4⟩, ⟨0, 0⟩, ⟨2, 3⟩, ⟨2, 4⟩]] := by decide!
    have := TriangulatePolygon_mono MAX_VERTICES EPSILON pentagon _ 2 e fuel
    rw [Nat.add_comm] at this
    exact this

/-- The pentagon takes the degenerate split, and its result is the concatenation of the
results of the two sub-polygons. -/
theorem C9_witness :
    firstReflex pentagon = some 1 ∧
    (search EPSILON 1 pentagon).lowerIndex =
      Int.tmod ((search EPSILON 1 pentagon).upperIndex + 1) pentagon.length ∧
    ∃ l u,
      (∃ f, Decompose f (Copy 1 (search EPSILON 1 pentagon).upperIndex pentagon ++
        [Point.div (Point.add (search EPSILON 1 pentagon).lowerInt
          (search EPSILON 1 pentagon).upperInt) 2]) = some l) ∧
      (∃ f, Decompose f (Copy (search EPSILON 1 pentagon).lowerIndex 1 pentagon ++
        [Point.div (Point.add (search EPSILON 1 pentagon).lowerInt
          (search EPSILON 1 pentagon).upperInt) 2]) = some u) ∧
      [[(⟨2, 3⟩ : Point), ⟨4, 0⟩, ⟨4, 4⟩, ⟨2, 4⟩], [⟨0, 4⟩, ⟨0, 0⟩, ⟨2, 3⟩, ⟨2, 4⟩]] = l ++ u :=
  ⟨by decide!, by decide!,
    (C9_steiner_split.1 pentagon 1 _ (by decide!) (by decide!)).mp ⟨2, by decide!⟩⟩

/-- C10. Output ordering: whenever `TriangulatePolygon` splits a polygon into `lowerPoly`
and `upperPoly` (degenerate or general case at the first reflex vertex, or the
oversized-convex case), what it returns is exactly the results for `lowerPoly` followed by
the results for `upperPoly`, nothing else; in the oversized-convex case
`lowerPoly = [v0..v_(n/2)]` and `upperPoly = [v_(n/2)..v_(n-1), v0]`. -/
theorem C10_lower_results_then_upper_results (P : Polygon) (out : List Polygon) :
    (∀ i : Nat, firstReflex P = some i →
      (((search EPSILON i P).lowerIndex =
            Int.tmod ((search EPSILON i P).upperIndex + 1) P.length →
          reflexSplit EPSILON i P =
            (Copy i (search EPSILON i P).upperIndex P ++
                [Point.div (Point.add (search EPSILON i P).lowerInt
                  (search EPSILON i P).upperInt) 2],
              Copy (search EPSILON i P).lowerIndex i P ++
                [Point.div (Point.add (search EPSILON i P).lowerInt
                  (search EPSILON i P).upperInt) 2])) ∧
        (¬ (search EPSILON i P).lowerIndex =
            Int.tmod ((search EPSILON i P).upperIndex + 1) P.length →
          reflexSplit EPSILON i P =
            (Copy i (bestIndex EPSILON i (search EPSILON i P).lowerIndex
                (search EPSILON i P).upperIndex P) P,
              Copy (bestIndex EPSILON i (search EPSILON i P).lowerIndex
                (search EPSILON i P).upperIndex P) i P))) ∧
      ((∃ fuel, Decompose fuel P = some out) ↔
        ∃ l u, (∃ f, Decompose f (reflexSplit EPSILON i P).1 = some l) ∧
          (∃ f, Decompose f (reflexSplit EPSILON i P).2 = some u) ∧ out = l ++ u)) ∧
    (firstReflex P = none → P.length > MAX_VERTICES →
      ((∃ fuel, Decompose fuel P = some out) ↔
        ∃ l u, (∃ f, Decompose f (P.take (P.length / 2 + 1)) = some l) ∧
          (∃ f, Decompose f (P.drop (P.length / 2) ++ P.take 1) = some u) ∧ out = l ++ u)) := by
  constructor
  · intro i hi
    refine ⟨⟨fun hdeg => ?_, fun hgen => ?_⟩, returns_iff_reflex MAX_VERTICES EPSILON P i hi out⟩
    · unfold reflexSplit
      simp only [hdeg, if_true]
    · unfold reflexSplit
      simp only [hgen, if_false]
  · intro hr hn
    have h := returns_iff_oversized MAX_VERTICES EPSILON P hr hn out
    have hn' : 8 < P.length := hn
    rw [convexSplit_eq P (by omega)] at h
    exact h

/-- The L-shape (general split) and the 12-gon (oversized-convex split) return the lower
results followed by the upper results. -/
theorem C10_witness :
    (firstReflex lShape = some 3 ∧
      ∃ l u, (∃ f, Decompose f (reflexSplit EPSILON 3 lShape).1 = some l) ∧
        (∃ f, Decompose f (reflexSplit EPSILON 3 lShape).2 = some u) ∧
        [[(⟨2, 2⟩ : Point), ⟨2, 4⟩, ⟨0, 4⟩, ⟨0, 0⟩], [⟨0, 0⟩, ⟨4, 0⟩, ⟨4, 2⟩, ⟨2, 2⟩]] = l ++ u) ∧
    (firstReflex dodecagon = none ∧ dodecagon.length > MAX_VERTICES ∧
      ∃ l u, (∃ f, Decompose f (dodecagon.take (dodecagon.length / 2 + 1)) = some l) ∧
        (∃ f, Decompose f (dodecagon.drop (dodecagon.length / 2) ++ dodecagon.take 1) =
          some u) ∧
        [[(⟨4, 0⟩ : Point), ⟨6, 1⟩, ⟨7, 2⟩, ⟨8, 4⟩, ⟨7, 6⟩, ⟨6, 7⟩, ⟨4, 8⟩],
          [⟨4, 8⟩, ⟨2, 7⟩, ⟨1, 6⟩, ⟨0, 4⟩, ⟨1, 2⟩, ⟨2, 1⟩, ⟨4, 0⟩]] = l ++ u) :=
  ⟨⟨by decide!,
      (((C10_lower_results_then_upper_results lShape _).1 3 (by decide!)).2).mp
        ⟨2, by decide!⟩⟩,
    ⟨by decide!, by decide,
      ((C10_lower_results_then_upper_results dodecagon _).2 (by decide!) (by decide)).mp
        ⟨2, by decide!⟩⟩⟩

/-! ## The index computed by `At` -/

theorem At_eq_getD_AtIndex (i : Int) (P : Polygon) :
    At i P = P.getD (AtIndex i P.length).toNat Point.zero := rfl

theorem AtIndex_eq_emod (i s : Int) (hs : 0 < s) : AtIndex i s = i % s := by
  unfold AtIndex
  by_cases hi : i < 0
  · simp only [hi, if_true]
    rw [Int.tmod_eq_emod (by omega) (le_of_lt hs)]
    have hr0 := Int.emod_nonneg (-i - 1) (ne_of_gt hs)
    have hr1 := Int.emod_lt_of_pos (-i - 1) hs
    have hd := Int.emod_add_ediv (-i - 1) s
    have : i = (s - 1 - (-i - 1) % s) + s * (-((-i - 1) / s) - 1) := by
      linear_combination hd
    conv_rhs => rw [this]
    rw [Int.add_mul_emod_self_left]
    exact (Int.emod_eq_of_lt (by omega) (by omega)).symm
  · simp only [hi, if_false]
    exact Int.tmod_eq_emod (by omega) (le_of_lt hs)

theorem At_mem (P : Polygon) (hn : 0 < P.length) (i : Int) : At i P ∈ P := by
  have hs : (0 : Int) < (P.length : Int) := by exact_mod_cast hn
  rw [At_emod P hn]
  have h0 := Int.emod_nonneg i (ne_of_gt hs)
  have h1 := Int.emod_lt_of_pos i hs
  have hlt : (i % (P.length : Int)).toNat < P.length := by omega
  rw [List.getD_eq_getElem?_getD, List.getElem?_eq_getElem hlt]
  simp

/-- C11. Circular indexing: for every non-empty polygon of `n` vertices and every integer
`i`, the index computed by `At(i)` lies in `[0, n)` and is the floor residue of `i`
modulo `n`; hence `At(i) = At(i + k*n)` for every integer `k`, and `At(i-1)`, `At(i)`,
`At(i+1)` are always vertices of the polygon. -/
theorem C11_At_index_is_floor_residue (P : Polygon) (hn : 0 < P.length) (i : Int) :
    At i P = P.getD (AtIndex i P.length).toNat Point.zero ∧
    (0 ≤ AtIndex i P.length ∧ AtIndex i P.length < P.length) ∧
    (AtIndex i P.length = i % (P.length : Int) ∧
      AtIndex i P.length = Int.fmod i (P.length : Int)) ∧
    (∀ k : Int, At (i + k * (P.length : Int)) P = At i P) ∧
    (At (i - 1) P ∈ P ∧ At i P ∈ P ∧ At (i + 1) P ∈ P) := by
  have hs : (0 : Int) < (P.length : Int) := by exact_mod_cast hn
  have e := AtIndex_eq_emod i P.length hs
  refine ⟨rfl, ?_, ⟨e, ?_⟩, ?_, At_mem P hn _, At_mem P hn _, At_mem P hn _⟩
  · rw [e]
    exact ⟨Int.emod_nonneg i (ne_of_gt hs), Int.emod_lt_of_pos i hs⟩
  · rw [e, Int.fmod_eq_emod _ (le_of_lt hs)]
  · intro k
    exact At_congr P hn _ _ (by
      rw [show i + k * (P.length : Int) - i = k * (P.length : Int) by ring]; simp)

/-- In the square, `At(-1)` is the last vertex and `At(4)`, `At(-4)` are the first. -/
theorem C11_witness :
    0 < square.length ∧
    (0 ≤ AtIndex (-1) square.length ∧ AtIndex (-1) square.length < square.length) ∧
    (∀ k : Int, At (-1 + k * (square.length : Int)) square = At (-1) square) ∧
    AtIndex (-1) square.length = 3 ∧ AtIndex 4 square.length = 0 ∧
    AtIndex (-4) square.length = 0 ∧ AtIndex (-5) square.length = 3 :=
  ⟨by decide, (C11_At_index_is_floor_residue square (by decide) (-1)).2.1,
    (C11_At_index_is_floor_residue square (by decide) (-1)).2.2.2.1,
    by decide, by decide, by decide, by decide⟩

/-! ## The two intersection routines -/

theorem LineIntersectSeg_eq (eps : ℚ) (p1 p2 p3 p4 : Point) (f s : Bool) :
    LineIntersectSeg eps p1 p2 p3 p4 f s =
      if !(decide (segDenom p1 p2 p3 p4 ≥ -eps) && decide (segDenom p1 p2 p3 p4 ≤ eps)) then
        if !f || (decide (segUa p1 p2 p3 p4 ≥ 0) && decide (segUa p1 p2 p3 p4 ≤ 1)) then
          if !s || (decide (segUb p1 p2 p3 p4 ≥ 0) && decide (segUb p1 p2 p3 p4 ≤ 1)) then
            if decide (segUa p1 p2 p3 p4 ≠ 0) || decide (segUb p1 p2 p3 p4 ≠ 0) then
              (true, ⟨p1.x + segUa p1 p2 p3 p4 * (p2.x - p1.x),
                p1.y + segUa p1 p2 p3 p4 * (p2.y - p1.y)⟩)
            else (false, Point.zero)
          else (false, Point.zero)
        else (false, Point.zero)
      else (false, Point.zero) := rfl

theorem seg_point_on_second (p1 p2 p3 p4 : Point) (h : segDenom p1 p2 p3 p4 ≠ 0) :
    p1.x + segUa p1 p2 p3 p4 * (p2.x - p1.x) = p3.x + segUb p1 p2 p3 p4 * (p4.x - p3.x) ∧
    p1.y + segUa p1 p2 p3 p4 * (p2.y - p1.y) = p3.y + segUb p1 p2 p3 p4 * (p4.y - p3.y) := by
  have h' : (p4.y - p3.y) * (p2.x - p1.x) - (p4.x - p3.x) * (p2.y - p1.y) ≠ 0 := h
  unfold segUa segUb segDenom
  constructor <;> field_simp <;> ring

theorem seg_core (f s : Bool) (ua ub : ℚ) (pt : Point) :
    ((if !f || (decide (ua ≥ 0) && decide (ua ≤ 1)) then
        if !s || (decide (ub ≥ 0) && decide (ub ≤ 1)) then
          if decide (ua ≠ 0) || decide (ub ≠ 0) then (true, pt) else (false, Point.zero)
        else (false, Point.zero)
      else (false, Point.zero)).1 = false ↔
      ((f = true ∧ ¬ (0 ≤ ua ∧ ua ≤ 1)) ∨ (s = true ∧ ¬ (0 ≤ ub ∧ ub ≤ 1)) ∨
        (ua = 0 ∧ ub = 0))) ∧
    ((if !f || (decide (ua ≥ 0) && decide (ua ≤ 1)) then
        if !s || (decide (ub ≥ 0) && decide (ub ≤ 1)) then
          if decide (ua ≠ 0) || decide (ub ≠ 0) then (true, pt) else (false, Point.zero)
        else (false, Point.zero)
      else (false, Point.zero)).1 = true →
      (if !f || (decide (ua ≥ 0) && decide (ua ≤ 1)) then
        if !s || (decide (ub ≥ 0) && decide (ub ≤ 1)) then
          if decide (ua ≠ 0) || decide (ub ≠ 0) then (true, pt) else (false, Point.zero)
        else (false, Point.zero)
      else (false, Point.zero)).2 = pt) ∧
    ((if !f || (decide (ua ≥ 0) && decide (ua ≤ 1)) then
        if !s || (decide (ub ≥ 0) && decide (ub ≤ 1)) then
          if decide (ua ≠ 0) || decide (ub ≠ 0) then (true, pt) else (false, Point.zero)
        else (false, Point.zero)
      else (false, Point.zero)).1 = false →
      (if !f || (decide (ua ≥ 0) && decide (ua ≤ 1)) then
        if !s || (decide (ub ≥ 0) && decide (ub ≤ 1)) then
          if decide (ua ≠ 0) || decide (ub ≠ 0) then (true, pt) else (false, Point.zero)
        else (false, Point.zero)
      else (false, Point.zero)).2 = Point.zero) := by
  split_ifs with h1 h2 h3
  · simp only [Bool.or_eq_true, Bool.not_eq_true', Bool.and_eq_true, decide_eq_true_eq] at h1 h2 h3
    refine ⟨⟨fun h => by simp at h, ?_⟩, fun _ => rfl, fun h => by simp at h⟩
    rintro (⟨hf, hn⟩ | ⟨hs, hn⟩ | ⟨ha, hb⟩)
    · rcases h1 with h | h
      · simp [hf] at h
      · exact absurd ⟨h.1, h.2⟩ hn
    · rcases h2 with h | h
      · simp [hs] at h
      · exact absurd ⟨h.1, h.2⟩ hn
    · rcases h3 with h | h
      · exact absurd ha h
      · exact absurd hb h
  · simp only [Bool.or_eq_true, decide_eq_true_eq, not_or, not_not] at h3
    exact ⟨⟨fun _ => Or.inr (Or.inr h3), fun _ => rfl⟩, fun h => by simp at h, fun _ => rfl⟩
  · simp only [Bool.or_eq_true, Bool.not_eq_true', Bool.and_eq_true, decide_eq_true_eq,
      not_or, Bool.not_eq_false] at h2
    exact ⟨⟨fun _ => Or.inr (Or.inl ⟨h2.1, fun h => h2.2 ⟨h.1, h.2⟩⟩), fun _ => rfl⟩,
      fun h => by simp at h, fun _ => rfl⟩
  · simp only [Bool.or_eq_true, Bool.not_eq_true', Bool.and_eq_true, decide_eq_true_eq,
      not_or, Bool.not_eq_false] at h1
    exact ⟨⟨fun _ => Or.inl ⟨h1.1, fun h => h1.2 ⟨h.1, h.2⟩⟩, fun _ => rfl⟩,
      fun h => by simp at h, fun _ => rfl⟩

/-- C12. Segment intersection contract (exact arithmetic, tolerance `eps ≥ 0`): the
seven-argument `LineIntersect` returns not-found exactly when `|denom| ≤ eps`, or
`firstIsSegment` and `ua` is outside `[0, 1]`, or `secondIsSegment` and `ub` is outside
`[0, 1]`, or `ua = 0` and `ub = 0`; when it returns found the point is
`p1 + ua (p2 - p1) = p3 + ub (p4 - p3)`; when not found the point is `(0, 0)`. -/
theorem C12_segment_intersection_contract (eps : ℚ) (heps : 0 ≤ eps) (p1 p2 p3 p4 : Point)
    (firstIsSegment secondIsSegment : Bool) :
    ((LineIntersectSeg eps p1 p2 p3 p4 firstIsSegment secondIsSegment).1 = false ↔
      (|segDenom p1 p2 p3 p4| ≤ eps ∨
        (firstIsSegment = true ∧ ¬ (0 ≤ segUa p1 p2 p3 p4 ∧ segUa p1 p2 p3 p4 ≤ 1)) ∨
        (secondIsSegment = true ∧ ¬ (0 ≤ segUb p1 p2 p3 p4 ∧ segUb p1 p2 p3 p4 ≤ 1)) ∨
        (segUa p1 p2 p3 p4 = 0 ∧ segUb p1 p2 p3 p4 = 0))) ∧
    ((LineIntersectSeg eps p1 p2 p3 p4 firstIsSegment secondIsSegment).1 = true →
      (LineIntersectSeg eps p1 p2 p3 p4 firstIsSegment secondIsSegment).2 =
          ⟨p1.x + segUa p1 p2 p3 p4 * (p2.x - p1.x),
            p1.y + segUa p1 p2 p3 p4 * (p2.y - p1.y)⟩ ∧
        (LineIntersectSeg eps p1 p2 p3 p4 firstIsSegment secondIsSegment).2 =
          ⟨p3.x + segUb p1 p2 p3 p4 * (p4.x - p3.x),
            p3.y + segUb p1 p2 p3 p4 * (p4.y - p3.y)⟩) ∧
    ((LineIntersectSeg eps p1 p2 p3 p4 firstIsSegment secondIsSegment).1 = false →
      (LineIntersectSeg eps p1 p2 p3 p4 firstIsSegment secondIsSegment).2 = Point.zero) := by
  rw [LineIntersectSeg_eq]
  by_cases hd : |segDenom p1 p2 p3 p4| ≤ eps
  · have hd' := abs_le.mp hd
    simp [hd, hd'.1, hd'.2]
  · have hd' : ¬ (-eps ≤ segDenom p1 p2 p3 p4 ∧ segDenom p1 p2 p3 p4 ≤ eps) :=
      fun h => hd (abs_le.mpr h)
    have hne : segDenom p1 p2 p3 p4 ≠ 0 := by
      intro h0
      apply hd
      rw [h0]; simpa using heps
    obtain ⟨ex, ey⟩ := seg_point_on_second p1 p2 p3 p4 hne
    have hcond : (!(decide (segDenom p1 p2 p3 p4 ≥ -eps) &&
        decide (segDenom p1 p2 p3 p4 ≤ eps))) = true := by
      simp only [Bool.not_eq_true', Bool.and_eq_false_iff, decide_eq_false_iff_not, ge_iff_le]
      by_cases h1 : -eps ≤ segDenom p1 p2 p3 p4
      · exact Or.inr (fun h2 => hd' ⟨h1, h2⟩)
      · exact Or.inl h1
    rw [if_pos hcond, ← ex, ← ey]
    obtain ⟨c1, c2, c3⟩ := seg_core firstIsSegment secondIsSegment (segUa p1 p2 p3 p4)
      (segUb p1 p2 p3 p4) ⟨p1.x + segUa p1 p2 p3 p4 * (p2.x - p1.x),
        p1.y + segUa p1 p2 p3 p4 * (p2.y - p1.y)⟩
    refine ⟨?_, fun h => ⟨c2 h, c2 h⟩, c3⟩
    rw [c1]
    constructor
    · intro h; exact Or.inr h
    · rintro (h | h)
      · exact absurd h hd
      · exact h

/-- The diagonals of a square cross at its centre; parallel segments are not found. -/
theorem C12_witness :
    0 ≤ EPSILON ∧
    LineIntersectSeg EPSILON ⟨0, 0⟩ ⟨2, 2⟩ ⟨0, 2⟩ ⟨2, 0⟩ true true = (true, ⟨1, 1⟩) ∧
    LineIntersectSeg EPSILON ⟨0, 0⟩ ⟨2, 0⟩ ⟨0, 1⟩ ⟨2, 1⟩ true true = (false, ⟨0, 0⟩) ∧
    ((LineIntersectSeg EPSILON ⟨0, 0⟩ ⟨2, 2⟩ ⟨0, 2⟩ ⟨2, 0⟩ true true).1 = true →
      (LineIntersectSeg EPSILON ⟨0, 0⟩ ⟨2, 2⟩ ⟨0, 2⟩ ⟨2, 0⟩ true true).2 =
          ⟨(⟨0, 0⟩ : Point).x + segUa ⟨0, 0⟩ ⟨2, 2⟩ ⟨0, 2⟩ ⟨2, 0⟩ *
              ((⟨2, 2⟩ : Point).x - (⟨0, 0⟩ : Point).x),
            (⟨0, 0⟩ : Point).y + segUa ⟨0, 0⟩ ⟨2, 2⟩ ⟨0, 2⟩ ⟨2, 0⟩ *
              ((⟨2, 2⟩ : Point).y - (⟨0, 0⟩ : Point).y)⟩ ∧
        (LineIntersectSeg EPSILON ⟨0, 0⟩ ⟨2, 2⟩ ⟨0, 2⟩ ⟨2, 0⟩ true true).2 =
          ⟨(⟨0, 2⟩ : Point).x + segUb ⟨0, 0⟩ ⟨2, 2⟩ ⟨0, 2⟩ ⟨2, 0⟩ *
              ((⟨2, 0⟩ : Point).x - (⟨0, 2⟩ : Point).x),
            (⟨0, 2⟩ : Point).y + segUb ⟨0, 0⟩ ⟨2, 2⟩ ⟨0, 2⟩ ⟨2, 0⟩ *
              ((⟨2, 0⟩ : Point).y - (⟨0, 2⟩ : Point).y)⟩) :=
  ⟨by decide!, by decide!, by decide!,
    (C12_segment_intersection_contract EPSILON (by decide!) ⟨0, 0⟩ ⟨2, 2⟩ ⟨0, 2⟩ ⟨2, 0⟩
      true true).2.1⟩

theorem LineIntersect_eq (eps : ℚ) (p1 p2 q1 q2 : Point) :
    LineIntersect eps p1 p2 q1 q2 =
      if !FloatEquals eps (lineDet p1 p2 q1 q2) 0 then
        ⟨((q1.x - q2.x) * ((p2.y - p1.y) * p1.x + (p1.x - p2.x) * p1.y) -
            (p1.x - p2.x) * ((q2.y - q1.y) * q1.x + (q1.x - q2.x) * q1.y)) /
            lineDet p1 p2 q1 q2,
          ((p2.y - p1.y) * ((q2.y - q1.y) * q1.x + (q1.x - q2.x) * q1.y) -
            (q2.y - q1.y) * ((p2.y - p1.y) * p1.x + (p1.x - p2.x) * p1.y)) /
            lineDet p1 p2 q1 q2⟩
      else Point.zero := rfl

theorem LineIntersect_parallel (eps : ℚ) (p1 p2 q1 q2 : Point)
    (h : |lineDet p1 p2 q1 q2| ≤ eps) : LineIntersect eps p1 p2 q1 q2 = Point.zero := by
  rw [LineIntersect_eq]
  simp [FloatEquals, h]

theorem LineIntersect_on_lines (eps : ℚ) (heps : 0 ≤ eps) (p1 p2 q1 q2 : Point)
    (h : eps < |lineDet p1 p2 q1 q2|) :
    Area p1 p2 (LineIntersect eps p1 p2 q1 q2) = 0 ∧
    Area q1 q2 (LineIntersect eps p1 p2 q1 q2) = 0 := by
  have hne : lineDet p1 p2 q1 q2 ≠ 0 := by
    intro h0
    rw [h0] at h
    simp at h
    linarith
  have hne' : (p2.y - p1.y) * (q1.x - q2.x) - (q2.y - q1.y) * (p1.x - p2.x) ≠ 0 := hne
  rw [LineIntersect_eq]
  have hc : (!FloatEquals eps (lineDet p1 p2 q1 q2) 0) = true := by
    simp [FloatEquals, h]
  rw [if_pos hc]
  unfold lineDet Area
  constructor <;> field_simp <;> ring

/-- C13. Infinite-line intersection contract (exact arithmetic, tolerance `eps ≥ 0`), with
`det = a1*b2 - a2*b1` as computed by the four-point `LineIntersect`: if `|det| ≤ eps` the
function returns the zero point `(0, 0)` (it has no way to signal failure: its result is a
point); if `|det| > eps` the returned point `r` lies on both infinite lines,
`Area(p1, p2, r) = 0` and `Area(q1, q2, r) = 0`. -/
theorem C13_line_intersection_contract (eps : ℚ) (heps : 0 ≤ eps) (p1 p2 q1 q2 : Point) :
    (|lineDet p1 p2 q1 q2| ≤ eps → LineIntersect eps p1 p2 q1 q2 = Point.zero) ∧
    (eps < |lineDet p1 p2 q1 q2| →
      Area p1 p2 (LineIntersect eps p1 p2 q1 q2) = 0 ∧
      Area q1 q2 (LineIntersect eps p1 p2 q1 q2) = 0) :=
  ⟨LineIntersect_parallel eps p1 p2 q1 q2, LineIntersect_on_lines eps heps p1 p2 q1 q2⟩

/-- The diagonals of a square meet at `(1, 1)`; two horizontal lines give the zero point. -/
theorem C13_witness :
    0 ≤ EPSILON ∧
    LineIntersect EPSILON ⟨0, 0⟩ ⟨2, 2⟩ ⟨0, 2⟩ ⟨2, 0⟩ = ⟨1, 1⟩ ∧
    (|lineDet ⟨0, 0⟩ ⟨2, 0⟩ ⟨0, 1⟩ ⟨2, 1⟩| ≤ EPSILON ∧
      LineIntersect EPSILON ⟨0, 0⟩ ⟨2, 0⟩ ⟨0, 1⟩ ⟨2, 1⟩ = Point.zero) ∧
    (EPSILON < |lineDet ⟨0, 0⟩ ⟨2, 2⟩ ⟨0, 2⟩ ⟨2, 0⟩| ∧
      Area ⟨0, 0⟩ ⟨2, 2⟩ (LineIntersect EPSILON ⟨0, 0⟩ ⟨2, 2⟩ ⟨0, 2⟩ ⟨2, 0⟩) = 0 ∧
      Area ⟨0, 2⟩ ⟨2, 0⟩ (LineIntersect EPSILON ⟨0, 0⟩ ⟨2, 2⟩ ⟨0, 2⟩ ⟨2, 0⟩) = 0) :=
  ⟨by decide!, by decide!,
    ⟨by decide!,
      (C13_line_intersection_contract EPSILON (by decide!) ⟨0, 0⟩ ⟨2, 0⟩ ⟨0, 1⟩ ⟨2, 1⟩).1
        (by decide!)⟩,
    ⟨by decide!,
      (C13_line_intersection_contract EPSILON (by decide!) ⟨0, 0⟩ ⟨2, 2⟩ ⟨0, 2⟩ ⟨2, 0⟩).2
        (by decide!)⟩⟩

/-! ## Visibility and the score -/

theorem Reflex_length_pos (P : Polygon) (i : Int) (hr : Reflex i P = true) : 0 < P.length := by
  rcases Nat.eq_zero_or_pos P.length with h | h
  · have hnil : P = [] := List.length_eq_zero.mp h
    subst hnil
    simp [Reflex, RightAt, Right, At, Area] at hr
  · exact h

/-- C17. A reflex vertex never sees itself or its neighbours: for every polygon `P`, every
index `i` with `Reflex(i, P)` and every integer `j` congruent to `i - 1`, `i` or `i + 1`
modulo `n`, `CanSee(i, j, P)` is false; hence an index that passed the visibility test from
`i` is congruent to none of them: the diagonal is neither a polygon edge at `i` nor of
zero length. -/
theorem C17_reflex_vertex_sees_no_neighbour (eps : ℚ) (P : Polygon) (i : Int)
    (hr : Reflex i P = true) :
    (∀ j : Int, (Int.ModEq (P.length : Int) j (i - 1) ∨ Int.ModEq (P.length : Int) j i ∨
        Int.ModEq (P.length : Int) j (i + 1)) → CanSee eps i j P = false) ∧
    (∀ b : Int, CanSee eps i b P = true →
      ¬ Int.ModEq (P.length : Int) b (i - 1) ∧ ¬ Int.ModEq (P.length : Int) b i ∧
        ¬ Int.ModEq (P.length : Int) b (i + 1)) := by
  have hn := Reflex_length_pos P i hr
  have key : ∀ j : Int, (Int.ModEq (P.length : Int) j (i - 1) ∨ Int.ModEq (P.length : Int) j i ∨
      Int.ModEq (P.length : Int) j (i + 1)) → CanSee eps i j P = false := by
    intro j hj
    apply CanSee_reflex_near eps P i j hn hr
    rcases hj with h | h | h
    · exact Or.inr (Or.inl (Int.emod_eq_emod_iff_emod_sub_eq_zero.mp h))
    · exact Or.inl (Int.emod_eq_emod_iff_emod_sub_eq_zero.mp h)
    · exact Or.inr (Or.inr (Int.emod_eq_emod_iff_emod_sub_eq_zero.mp h))
  refine ⟨key, fun b hb => ⟨fun h => ?_, fun h => ?_, fun h => ?_⟩⟩
  · rw [key b (Or.inl h)] at hb; exact Bool.false_ne_true hb
  · rw [key b (Or.inr (Or.inl h))] at hb; exact Bool.false_ne_true hb
  · rw [key b (Or.inr (Or.inr h))] at hb; exact Bool.false_ne_true hb

/-- In the L-shape the reflex vertex 3 sees none of the indices 2, 3, 4, 8, 9, 10, -3. -/
theorem C17_witness :
    Reflex 3 lShape = true ∧
    (∀ j ∈ [(2 : Int), 3, 4, 8, 9, 10, -3], CanSee EPSILON 3 j lShape = false) ∧
    CanSee EPSILON 3 9 lShape = false :=
  ⟨by decide!, by decide!,
    (C17_reflex_vertex_sees_no_neighbour EPSILON lShape 3 (by decide!)).1 9
      (Or.inr (Or.inl (by decide)))⟩

/-- C18. Diagonal splits preserve signed area: for every polygon `P` of `n` vertices and
all indices `0 ≤ i, b < n` with `i ≠ b`, the signed shoelace sum of `Copy(i, b, P)` plus
that of `Copy(b, i, P)` equals the signed shoelace sum of `P`.  The oversized-convex split
at `(0, n/2)` is an instance, and so is the general-case split at `(i, bestIndex)` whenever
`bestIndex` is different from `i` and at most `i + n` (a `bestIndex` of `n` or more stands
for the vertex `bestIndex - n`, and `Copy` yields the same two polygons for both). -/
theorem C18_diagonal_split_preserves_signed_area (P : Polygon) :
    (∀ i b : Int, 0 ≤ i → i < P.length → 0 ≤ b → b < P.length → i ≠ b →
      shoelace2 (Copy i b P) + shoelace2 (Copy b i P) = shoelace2 P) ∧
    (P.length > MAX_VERTICES →
      shoelace2 (convexSplit P).1 + shoelace2 (convexSplit P).2 = shoelace2 P) ∧
    (∀ (eps : ℚ) (i : Nat), firstReflex P = some i →
      ¬ (search eps i P).lowerIndex = Int.tmod ((search eps i P).upperIndex + 1) P.length →
      bestIndex eps i (search eps i P).lowerIndex (search eps i P).upperIndex P ≠ i →
      bestIndex eps i (search eps i P).lowerIndex (search eps i P).upperIndex P ≤
        (i : Int) + P.length →
      shoelace2 (reflexSplit eps i P).1 + shoelace2 (reflexSplit eps i P).2 = shoelace2 P) := by
  refine ⟨fun i b _ hin hb0 _ hne => shoelace2_diagonal P i b hin hb0 (fun h => hne h.symm)
    (by omega), fun hn => ?_, fun eps i hi hgen hne hlt => ?_⟩
  · have hn' : 8 < P.length := hn
    exact convexSplit_area P (by omega)
  · have hin := firstReflex_lt P i hi
    obtain ⟨h1, -, -, -⟩ := search_bounds eps i P (by omega)
    have hb0 := le_trans h1 (bestIndex_ge eps i (search eps i P).lowerIndex
      (search eps i P).upperIndex P)
    unfold reflexSplit
    simp only [hgen, if_false]
    exact shoelace2_diagonal P i _ (by exact_mod_cast hin) hb0 hne (by omega)

/-- The diagonal from vertex 3 to vertex 0 of the L-shape: shoelace sums `12 + 12 = 24`;
the halves of the 12-gon add up as well. -/
theorem C18_witness :
    ((0 : Int) ≤ 3 ∧ (3 : Int) < lShape.length ∧ (0 : Int) ≤ 0 ∧ (0 : Int) < lShape.length ∧
      (3 : Int) ≠ 0) ∧
    shoelace2 (Copy 3 0 lShape) = 12 ∧ shoelace2 (Copy 0 3 lShape) = 12 ∧
    shoelace2 lShape = 24 ∧
    shoelace2 (Copy 3 0 lShape) + shoelace2 (Copy 0 3 lShape) = shoelace2 lShape ∧
    (dodecagon.length > MAX_VERTICES ∧
      shoelace2 (convexSplit dodecagon).1 + shoelace2 (convexSplit dodecagon).2 =
        shoelace2 dodecagon) :=
  ⟨by decide, by decide!, by decide!, by decide!,
    (C18_diagonal_split_preserves_signed_area lShape).1 3 0 (by decide) (by decide)
      (by decide) (by decide) (by decide),
    by decide, (C18_diagonal_split_preserves_signed_area dodecagon).2.1 (by decide)⟩

/-! ## Visibility is symmetric -/

theorem LineIntersect5_found (eps : ℚ) (p1 p2 p3 p4 : Point) :
    (LineIntersect5 eps p1 p2 p3 p4).1 =
      (!(decide (segDenom p1 p2 p3 p4 ≥ -eps) && decide (segDenom p1 p2 p3 p4 ≤ eps)) &&
        ((decide (segUa p1 p2 p3 p4 ≥ 0) && decide (segUa p1 p2 p3 p4 ≤ 1)) &&
          ((decide (segUb p1 p2 p3 p4 ≥ 0) && decide (segUb p1 p2 p3 p4 ≤ 1)) &&
            (decide (segUa p1 p2 p3 p4 ≠ 0) || decide (segUb p1 p2 p3 p4 ≠ 0))))) := by
  unfold LineIntersect5
  rw [LineIntersectSeg_eq]
  split_ifs with h1 h2 h3 h4 <;> simp_all

theorem segDenom_swap (p1 p2 p3 p4 : Point) :
    segDenom p2 p1 p3 p4 = -segDenom p1 p2 p3 p4 := by
  simp only [segDenom]; ring

theorem segUa_swap (p1 p2 p3 p4 : Point) (h : segDenom p1 p2 p3 p4 ≠ 0) :
    segUa p2 p1 p3 p4 = 1 - segUa p1 p2 p3 p4 := by
  have h' : (p4.y - p3.y) * (p2.x - p1.x) - (p4.x - p3.x) * (p2.y - p1.y) ≠ 0 := h
  have h'' : (p4.y - p3.y) * (p1.x - p2.x) - (p4.x - p3.x) * (p1.y - p2.y) ≠ 0 := by
    intro h0; apply h'; linear_combination -h0
  simp only [segUa, segDenom]
  field_simp
  ring

theorem segUb_swap (p1 p2 p3 p4 : Point) (h : segDenom p1 p2 p3 p4 ≠ 0) :
    segUb p2 p1 p3 p4 = segUb p1 p2 p3 p4 := by
  have h' : (p4.y - p3.y) * (p2.x - p1.x) - (p4.x - p3.x) * (p2.y - p1.y) ≠ 0 := h
  have h'' : (p4.y - p3.y) * (p1.x - p2.x) - (p4.x - p3.x) * (p1.y - p2.y) ≠ 0 := by
    intro h0; apply h'; linear_combination -h0
  simp only [segUb, segDenom]
  field_simp
  ring

/-- Swapping the end points of the first segment does not change whether an intersection
is found, as long as neither end point is the start of the second segment. -/
theorem LineIntersect5_swap (eps : ℚ) (p1 p2 p3 p4 : Point) (h13 : p1 ≠ p3) (h23 : p2 ≠ p3) :
    (LineIntersect5 eps p1 p2 p3 p4).1 = (LineIntersect5 eps p2 p1 p3 p4).1 := by
  rw [LineIntersect5_found, LineIntersect5_found]
  by_cases hd : segDenom p1 p2 p3 p4 = 0
  · have hd' : segDenom p2 p1 p3 p4 = 0 := by rw [segDenom_swap, hd]; simp
    simp [segUa, segUb, hd, hd']
  · obtain ⟨ex, ey⟩ := seg_point_on_second p1 p2 p3 p4 hd
    have n0 : ¬ (segUa p1 p2 p3 p4 = 0 ∧ segUb p1 p2 p3 p4 = 0) := by
      rintro ⟨ha, hb⟩
      rw [ha, hb] at ex ey
      apply h13
      cases p1; cases p3
      simp only [zero_mul, add_zero] at ex ey
      simp [ex, ey]
    have n1 : ¬ (segUa p1 p2 p3 p4 = 1 ∧ segUb p1 p2 p3 p4 = 0) := by
      rintro ⟨ha, hb⟩
      rw [ha, hb] at ex ey
      apply h23
      cases p2; cases p3
      simp only [zero_mul, add_zero, one_mul, add_sub_cancel] at ex ey
      simp [ex, ey]
    rw [segDenom_swap p1 p2 p3 p4, segUa_swap p1 p2 p3 p4 hd, segUb_swap p1 p2 p3 p4 hd]
    have c0 : (decide (segUa p1 p2 p3 p4 ≠ 0) || decide (segUb p1 p2 p3 p4 ≠ 0)) = true := by
      simp only [Bool.or_eq_true, decide_eq_true_eq]
      by_contra hc
      push_neg at hc
      exact n0 hc
    have c1 : (decide (1 - segUa p1 p2 p3 p4 ≠ 0) || decide (segUb p1 p2 p3 p4 ≠ 0)) = true := by
      simp only [Bool.or_eq_true, decide_eq_true_eq]
      by_contra hc
      push_neg at hc
      exact n1 ⟨by linarith [hc.1], hc.2⟩
    rw [c0, c1]
    have d0 : (decide (-segDenom p1 p2 p3 p4 ≥ -eps) && decide (-segDenom p1 p2 p3 p4 ≤ eps)) =
        (decide (segDenom p1 p2 p3 p4 ≥ -eps) && decide (segDenom p1 p2 p3 p4 ≤ eps)) := by
      rw [Bool.eq_iff_iff]
      simp only [Bool.and_eq_true, decide_eq_true_eq]
      constructor <;> rintro ⟨a, b⟩ <;> constructor <;> linarith
    have a0 : (decide (1 - segUa p1 p2 p3 p4 ≥ 0) && decide (1 - segUa p1 p2 p3 p4 ≤ 1)) =
        (decide (segUa p1 p2 p3 p4 ≥ 0) && decide (segUa p1 p2 p3 p4 ≤ 1)) := by
      rw [Bool.eq_iff_iff]
      simp only [Bool.and_eq_true, decide_eq_true_eq]
      constructor <;> rintro ⟨a, b⟩ <;> constructor <;> linarith
    rw [d0, a0]

theorem At_ne_of_ne (P : Polygon) (hnd : P.Nodup) (a b : Nat) (ha : a < P.length)
    (hb : b < P.length) (hab : a ≠ b) : At (a : Int) P ≠ At (b : Int) P := by
  rw [At_natCast P a ha, At_natCast P b hb, List.getD_eq_getElem?_getD,
    List.getD_eq_getElem?_getD, List.getElem?_eq_getElem ha, List.getElem?_eq_getElem hb]
  simp only [Option.getD_some]
  intro h
  exact hab ((hnd.getElem_inj_iff).mp h)

theorem CanSee_eq_gates (eps : ℚ) (i j : Int) (P : Polygon) :
    CanSee eps i j P =
      if CanSeeGate i j P then false
      else if CanSeeGate j i P then false
      else CanSeeEdges eps i j P := rfl

theorem CanSeeEdges_imp_swap (eps : ℚ) (P : Polygon) (hnd : P.Nodup) (i j : Nat)
    (hi : i < P.length) (hj : j < P.length) (h : CanSeeEdges eps i j P = true) :
    CanSeeEdges eps j i P = true := by
  unfold CanSeeEdges at h ⊢
  rw [List.all_eq_true] at h ⊢
  intro k hk
  have hkn : k < P.length := List.mem_range.mp hk
  have hk' := h k hk
  by_cases s1 : (decide (Int.tmod ((k : Int) + 1) P.length = (i : Int)) ||
      decide ((k : Int) = (i : Int)) ||
      decide (Int.tmod ((k : Int) + 1) P.length = (j : Int)) || decide ((k : Int) = (j : Int))) =
      true
  · rw [if_pos]
    simp only [Bool.or_eq_true, decide_eq_true_eq] at s1 ⊢
    tauto
  · rw [if_neg s1] at hk'
    rw [if_neg]
    · simp only [Bool.or_eq_true, decide_eq_true_eq, not_or] at s1
      obtain ⟨⟨⟨-, ki⟩, -⟩, kj⟩ := s1
      have ki' : k ≠ i := fun e => ki (by exact_mod_cast e)
      have kj' : k ≠ j := fun e => kj (by exact_mod_cast e)
      rw [← LineIntersect5_swap eps (At i P) (At j P) (At k P) (At ((k : Int) + 1) P)
        (At_ne_of_ne P hnd i k hi hkn (Ne.symm ki'))
        (At_ne_of_ne P hnd j k hj hkn (Ne.symm kj'))]
      exact hk'
    · simp only [Bool.or_eq_true, decide_eq_true_eq] at s1 ⊢
      tauto

theorem CanSee_imp_swap (eps : ℚ) (P : Polygon) (hnd : P.Nodup) (i j : Nat)
    (hi : i < P.length) (hj : j < P.length) (h : CanSee eps i j P = true) :
    CanSee eps j i P = true := by
  rw [CanSee_eq_gates] at h ⊢
  split_ifs at h with g1 g2
  rw [if_neg g2, if_neg g1]
  exact CanSeeEdges_imp_swap eps P hnd i j hi hj h

/-- C15. Visibility is symmetric: for every polygon `P` with at least 3 pairwise-distinct
vertices and all indices `0 ≤ i, j < n`, `CanSee(i, j, P) = CanSee(j, i, P)` (exact
arithmetic, any tolerance). -/
theorem C15_visibility_is_symmetric (eps : ℚ) (P : Polygon) (_hlen : 3 ≤ P.length)
    (hnd : P.Nodup) (i j : Int) (hi0 : 0 ≤ i) (hin : i < P.length) (hj0 : 0 ≤ j)
    (hjn : j < P.length) :
    CanSee eps i j P = CanSee eps j i P := by
  obtain ⟨a, rfl⟩ : ∃ a : Nat, i = a := ⟨i.toNat, by omega⟩
  obtain ⟨b, rfl⟩ : ∃ b : Nat, j = b := ⟨j.toNat, by omega⟩
  have ha : a < P.length := by exact_mod_cast hin
  have hb : b < P.length := by exact_mod_cast hjn
  rw [Bool.eq_iff_iff]
  exact ⟨CanSee_imp_swap eps P hnd a b ha hb, CanSee_imp_swap eps P hnd b a hb ha⟩

/-- In the L-shape vertices 3 and 0 see each other, vertices 3 and 1 too, and vertices 2
and 4 see each other in neither direction. -/
theorem C15_witness :
    (3 ≤ lShape.length ∧ lShape.Nodup) ∧
    CanSee EPSILON 3 0 lShape = true ∧ CanSee EPSILON 0 3 lShape = true ∧
    CanSee EPSILON 2 4 lShape = false ∧ CanSee EPSILON 4 2 lShape = false ∧
    CanSee EPSILON 3 1 lShape = CanSee EPSILON 1 3 lShape :=
  ⟨by decide!, by decide!, by decide!, by decide!, by decide!,
    C15_visibility_is_symmetric EPSILON lShape (by decide) (by decide!) 3 1 (by decide)
      (by decide) (by decide) (by decide)⟩

/-! ## The Steiner point -/

theorem searchStep_eq (eps : ℚ) (i : Int) (P : Polygon) (st : Search) (j : Int) :
    searchStep eps i P st j = searchUpper eps i P (searchLower eps i P st j) j := rfl

theorem searchLower_found (eps : ℚ) (i : Int) (P : Polygon) (st : Search) (j : Int)
    (h : st.lowerDist ≤ FLT_MAX ∧ st.upperDist ≤ FLT_MAX ∧
      (st.lowerDist < FLT_MAX → lowerFound eps i P st) ∧
      (st.upperDist < FLT_MAX → upperFound eps i P st)) :
    (searchLower eps i P st j).lowerDist ≤ FLT_MAX ∧
    (searchLower eps i P st j).upperDist ≤ FLT_MAX ∧
    ((searchLower eps i P st j).lowerDist < FLT_MAX →
      lowerFound eps i P (searchLower eps i P st j)) ∧
    ((searchLower eps i P st j).upperDist < FLT_MAX →
      upperFound eps i P (searchLower eps i P st j)) := by
  obtain ⟨h1, h2, h3, h4⟩ := h
  unfold searchLower
  simp only
  split_ifs with g1 g2 g3
  · simp only [Bool.and_eq_true] at g1
    exact ⟨le_of_lt (lt_of_lt_of_le g3 h1), h2, fun _ => ⟨g1.1, g1.2, rfl⟩, h4⟩
  · exact ⟨h1, h2, h3, h4⟩
  · exact ⟨h1, h2, h3, h4⟩
  · exact ⟨h1, h2, h3, h4⟩

theorem searchUpper_found (eps : ℚ) (i : Int) (P : Polygon) (st : Search) (j : Int)
    (h : st.lowerDist ≤ FLT_MAX ∧ st.upperDist ≤ FLT_MAX ∧
      (st.lowerDist < FLT_MAX → lowerFound eps i P st) ∧
      (st.upperDist < FLT_MAX → upperFound eps i P st)) :
    (searchUpper eps i P st j).lowerDist ≤ FLT_MAX ∧
    (searchUpper eps i P st j).upperDist ≤ FLT_MAX ∧
    ((searchUpper eps i P st j).lowerDist < FLT_MAX →
      lowerFound eps i P (searchUpper eps i P st j)) ∧
    ((searchUpper eps i P st j).upperDist < FLT_MAX →
      upperFound eps i P (searchUpper eps i P st j)) := by
  obtain ⟨h1, h2, h3, h4⟩ := h
  unfold searchUpper
  simp only
  split_ifs with g1 g2 g3
  · simp only [Bool.and_eq_true] at g1
    exact ⟨h1, le_of_lt (lt_of_lt_of_le g3 h2), h3, fun _ => ⟨g1.1, g1.2, rfl⟩⟩
  · exact ⟨h1, h2, h3, h4⟩
  · exact ⟨h1, h2, h3, h4⟩
  · exact ⟨h1, h2, h3, h4⟩

/-- Whatever the search loop has set was computed at the index it recorded, with the
gate of that test open. -/
theorem search_found (eps : ℚ) (i : Int) (P : Polygon) :
    ((search eps i P).lowerDist < FLT_MAX → lowerFound eps i P (search eps i P)) ∧
    ((search eps i P).upperDist < FLT_MAX → upperFound eps i P (search eps i P)) := by
  have key : (search eps i P).lowerDist ≤ FLT_MAX ∧ (search eps i P).upperDist ≤ FLT_MAX ∧
      ((search eps i P).lowerDist < FLT_MAX → lowerFound eps i P (search eps i P)) ∧
      ((search eps i P).upperDist < FLT_MAX → upperFound eps i P (search eps i P)) := by
    unfold search
    apply foldl_invariant (fun st : Search => st.lowerDist ≤ FLT_MAX ∧ st.upperDist ≤ FLT_MAX ∧
      (st.lowerDist < FLT_MAX → lowerFound eps i P st) ∧
      (st.upperDist < FLT_MAX → upperFound eps i P st))
    · intro st j _ hst
      rw [searchStep_eq]
      exact searchUpper_found eps i P _ j (searchLower_found eps i P st j hst)
    · refine ⟨le_refl _, le_refl _, fun h => ?_, fun h => ?_⟩
      · exact absurd h (lt_irrefl _)
      · exact absurd h (lt_irrefl _)
  exact ⟨key.2.2.1, key.2.2.2⟩

theorem lineDet_eq_Area_sub (p1 p2 q1 q2 : Point) :
    lineDet p1 p2 q1 q2 = Area p1 p2 q2 - Area p1 p2 q1 := by
  simp only [lineDet, Area]; ring

/-- When the line through `p1`, `p2` separates `q1` from `q2` (weakly), the point computed
by `LineIntersect` lies on the closed segment between `q1` and `q2`. -/
theorem LineIntersect_on_segment (eps : ℚ) (heps : 0 ≤ eps) (p1 p2 q1 q2 : Point)
    (hdet : eps < |lineDet p1 p2 q1 q2|)
    (hsep : (0 < Area p1 p2 q1 ∧ Area p1 p2 q2 ≤ 0) ∨ (Area p1 p2 q1 ≤ 0 ∧ 0 < Area p1 p2 q2)) :
    OnSegment q1 q2 (LineIntersect eps p1 p2 q1 q2) := by
  have hne : lineDet p1 p2 q1 q2 ≠ 0 := by
    intro h0
    rw [h0] at hdet
    simp at hdet
    linarith
  have hc : (!FloatEquals eps (lineDet p1 p2 q1 q2) 0) = true := by
    simp [FloatEquals, hdet]
  have hA := lineDet_eq_Area_sub p1 p2 q1 q2
  refine ⟨-Area p1 p2 q1 / lineDet p1 p2 q1 q2, ?_, ?_, ?_, ?_⟩
  · rcases hsep with ⟨a, b⟩ | ⟨a, b⟩
    · have : lineDet p1 p2 q1 q2 < 0 := by linarith
      exact div_nonneg_of_nonpos (by linarith) (le_of_lt this)
    · have : 0 < lineDet p1 p2 q1 q2 := by linarith
      exact div_nonneg (by linarith) (le_of_lt this)
  · rcases hsep with ⟨a, b⟩ | ⟨a, b⟩
    · have : lineDet p1 p2 q1 q2 < 0 := by linarith
      rw [div_le_one_of_neg this]
      linarith
    · have : 0 < lineDet p1 p2 q1 q2 := by linarith
      rw [div_le_one this]
      linarith
  · rw [LineIntersect_eq, if_pos hc]
    have hne' : (p2.y - p1.y) * (q1.x - q2.x) - (q2.y - q1.y) * (p1.x - p2.x) ≠ 0 := hne
    simp only [lineDet, Area]
    field_simp
    ring
  · rw [LineIntersect_eq, if_pos hc]
    have hne' : (p2.y - p1.y) * (q1.x - q2.x) - (q2.y - q1.y) * (p1.x - p2.x) ≠ 0 := hne
    simp only [lineDet, Area]
    field_simp
    ring

theorem OnSegment_symm (a b x : Point) (h : OnSegment a b x) : OnSegment b a x := by
  obtain ⟨t, h0, h1, hx, hy⟩ := h
  exact ⟨1 - t, by linarith, by linarith, by rw [hx]; ring, by rw [hy]; ring⟩

theorem OnSegment_midpoint (a b x y : Point) (hx : OnSegment a b x) (hy : OnSegment a b y) :
    OnSegment a b (Point.div (Point.add x y) 2) := by
  obtain ⟨t, h0, h1, e1, e2⟩ := hx
  obtain ⟨u, k0, k1, f1, f2⟩ := hy
  refine ⟨(t + u) / 2, by linarith, by linarith, ?_, ?_⟩
  · simp only [Point.div, Point.add, e1, f1]; ring
  · simp only [Point.div, Point.add, e2, f2]; ring

theorem Area_of_OnSegment (a b x : Point) (h : OnSegment a b x) : Area a x b = 0 := by
  obtain ⟨t, -, -, hx, hy⟩ := h
  simp only [Area, hx, hy]; ring

/-- C19. The Steiner point lies on the edge it splits: in the degenerate case
(`lowerIndex == (upperIndex + 1) % n`), if both `lowerInt` and `upperInt` were set by the
search loop (`lowerDist`, `upperDist` below their initial `FLT_MAX`) with intersection
determinants of magnitude above `eps`, then `lowerInt`, `upperInt` and their midpoint all
lie on the closed segment between vertex `upperIndex` and vertex `lowerIndex`, and the
signed shoelace sums of the two sub-polygons add up to that of the parent. -/
theorem C19_steiner_point_on_split_edge (eps : ℚ) (heps : 0 ≤ eps) (P : Polygon) (i : Nat)
    (hi : firstReflex P = some i)
    (hdeg : (search eps i P).lowerIndex =
      Int.tmod ((search eps i P).upperIndex + 1) P.length)
    (hL : (search eps i P).lowerDist < FLT_MAX)
    (hU : (search eps i P).upperDist < FLT_MAX)
    (hdL : eps < |lineDet (At ((i : Int) - 1) P) (At i P) (At (search eps i P).lowerIndex P)
      (At ((search eps i P).lowerIndex - 1) P)|)
    (hdU : eps < |lineDet (At ((i : Int) + 1) P) (At i P) (At (search eps i P).upperIndex P)
      (At ((search eps i P).upperIndex + 1) P)|) :
    OnSegment (At (search eps i P).upperIndex P) (At (search eps i P).lowerIndex P)
      (search eps i P).lowerInt ∧
    OnSegment (At (search eps i P).upperIndex P) (At (search eps i P).lowerIndex P)
      (search eps i P).upperInt ∧
    OnSegment (At (search eps i P).upperIndex P) (At (search eps i P).lowerIndex P)
      (Point.div (Point.add (search eps i P).lowerInt (search eps i P).upperInt) 2) ∧
    shoelace2 (reflexSplit eps i P).1 + shoelace2 (reflexSplit eps i P).2 = shoelace2 P := by
  have hlt := firstReflex_lt P i hi
  have hn : 0 < P.length := by omega
  obtain ⟨h1, h2, h3, h4⟩ := search_bounds eps i P hn
  obtain ⟨fL, fU⟩ := search_found eps i P
  obtain ⟨l1, l2, l3⟩ := fL hL
  obtain ⟨u1, u2, u3⟩ := fU hU
  have hlow := tmod_succ_cases P.length _ h3 h4
  rw [← hdeg] at hlow
  have hzero : ∀ x : Int, x = 0 ∨ x = (P.length : Int) ∨ x = -(P.length : Int) →
      x % (P.length : Int) = 0 := by
    rintro x (h | h | h) <;> simp [h]
  -- the edge before `lowerIndex` starts at `upperIndex`, the edge after `upperIndex` ends
  -- at `lowerIndex`
  have e1 : At ((search eps i P).lowerIndex - 1) P = At (search eps i P).upperIndex P :=
    At_congr P hn _ _ (hzero _ (by omega))
  have e2 : At ((search eps i P).upperIndex + 1) P = At (search eps i P).lowerIndex P :=
    At_congr P hn _ _ (hzero _ (by omega))
  rw [e1] at l2 l3 hdL
  rw [e2] at u1 u3 hdU
  simp only [Left, RightOn, decide_eq_true_eq] at l1 l2 u1 u2
  have sL : OnSegment (At (search eps i P).upperIndex P) (At (search eps i P).lowerIndex P)
      (search eps i P).lowerInt := by
    rw [l3]
    exact OnSegment_symm _ _ _ (LineIntersect_on_segment eps heps _ _ _ _ hdL (Or.inl ⟨l1, l2⟩))
  have sU : OnSegment (At (search eps i P).upperIndex P) (At (search eps i P).lowerIndex P)
      (search eps i P).upperInt := by
    rw [u3]
    exact LineIntersect_on_segment eps heps _ _ _ _ hdU (Or.inr ⟨u2, u1⟩)
  have sM := OnSegment_midpoint _ _ _ _ sL sU
  refine ⟨sL, sU, sM, ?_⟩
  unfold reflexSplit
  simp only [hdeg, if_true]
  rw [← hdeg, shoelace2_steiner P i _ _ _ (by omega) (by exact_mod_cast hlt) h3 h4 hlow,
    Area_of_OnSegment _ _ _ sM, add_zero]

/-- The pentagon of scenario 4: both intersections, `(8/3, 4)` and `(4/3, 4)`, were set
with determinants 12 and -12, and they and the Steiner point `(2, 4)` lie on the edge
from vertex 3 to vertex 4. -/
theorem C19_witness :
    (0 ≤ EPSILON ∧ firstReflex pentagon = some 1 ∧
      (search EPSILON 1 pentagon).lowerIndex =
        Int.tmod ((search EPSILON 1 pentagon).upperIndex + 1) pentagon.length ∧
      (search EPSILON 1 pentagon).lowerDist < FLT_MAX ∧
      (search EPSILON 1 pentagon).upperDist < FLT_MAX) ∧
    (Point.div (Point.add (search EPSILON 1 pentagon).lowerInt
      (search EPSILON 1 pentagon).upperInt) 2 = ⟨2, 4⟩ ∧
      At (search EPSILON 1 pentagon).upperIndex pentagon = ⟨4, 4⟩ ∧
      At (search EPSILON 1 pentagon).lowerIndex pentagon = ⟨0, 4⟩) ∧
    OnSegment (At (search EPSILON 1 pentagon).upperIndex pentagon)
      (At (search EPSILON 1 pentagon).lowerIndex pentagon)
      (Point.div (Point.add (search EPSILON 1 pentagon).lowerInt
        (search EPSILON 1 pentagon).upperInt) 2) ∧
    shoelace2 (reflexSplit EPSILON 1 pentagon).1 + shoelace2 (reflexSplit EPSILON 1 pentagon).2 =
      shoelace2 pentagon :=
  ⟨⟨by decide!, by decide!, by decide!, by decide!, by decide!⟩,
    ⟨by decide!, by decide!, by decide!⟩,
    (C19_steiner_point_on_split_edge EPSILON (by decide!) pentagon 1 (by decide!) (by decide!)
      (by decide!) (by decide!) (by decide!) (by decide!)).2.2.1,
    (C19_steiner_point_on_split_edge EPSILON (by decide!) pentagon 1 (by decide!) (by decide!)
      (by decide!) (by decide!) (by decide!) (by decide!)).2.2.2⟩

/-! ## A clockwise triangle -/

theorem searchLower_of_not_left (eps : ℚ) (i : Int) (P : Polygon) (st : Search) (j : Int)
    (h : Left (At (i - 1) P) (At i P) (At j P) = false) : searchLower eps i P st j = st := by
  unfold searchLower
  simp [h]

theorem searchUpper_of_not_left (eps : ℚ) (i : Int) (P : Polygon) (st : Search) (j : Int)
    (h : Left (At (i + 1) P) (At i P) (At (j + 1) P) = false) :
    searchUpper eps i P st j = st := by
  unfold searchUpper
  simp [h]

theorem searchUpper_indices (eps : ℚ) (i : Int) (P : Polygon) (st : Search) (j : Int) :
    (searchUpper eps i P st j).lowerIndex = st.lowerIndex ∧
    ((searchUpper eps i P st j).upperIndex = st.upperIndex ∨
      (searchUpper eps i P st j).upperIndex = j) := by
  unfold searchUpper
  simp only
  split_ifs
  · exact ⟨rfl, Or.inr rfl⟩
  · exact ⟨rfl, Or.inl rfl⟩
  · exact ⟨rfl, Or.inl rfl⟩
  · exact ⟨rfl, Or.inl rfl⟩

/-- C20. Wrong winding degenerates silently: for every clockwise triangle `[v0, v1, v2]`
(`Area(v0, v1, v2) < 0`) and every tolerance, vertex 0 is the first reflex vertex,
`lowerIndex` stays at its default 0, no candidate is visible, the fallback split at
`bestIndex = lowerIndex = i = 0` copies only vertex 0 into both halves, and the
decomposition terminates with exactly the two single-vertex polygons `[[v0], [v0]]`. -/
theorem C20_clockwise_triangle_gives_two_points (eps : ℚ) (v0 v1 v2 : Point)
    (hcw : Area v0 v1 v2 < 0) (fuel : Nat) :
    firstReflex [v0, v1, v2] = some 0 ∧
    (search eps 0 [v0, v1, v2]).lowerIndex = 0 ∧
    (∀ j : Int, (j = 0 ∨ j = 1) → CanSee eps 0 j [v0, v1, v2] = false) ∧
    bestIndex eps 0 (search eps 0 [v0, v1, v2]).lowerIndex
      (search eps 0 [v0, v1, v2]).upperIndex [v0, v1, v2] = 0 ∧
    reflexSplit eps 0 [v0, v1, v2] = ([v0], [v0]) ∧
    TriangulatePolygon MAX_VERTICES eps (fuel + 2) [v0, v1, v2] = some [[v0], [v0]] := by
  have hr : Reflex 0 [v0, v1, v2] = true := by
    have := Area_cyclic v2 v0 v1
    simp [Reflex, RightAt, Right, At, Int.tmod]
    linarith
  have hfirst : firstReflex [v0, v1, v2] = some 0 := by
    simp [firstReflex, List.range_succ, List.find?, hr]
  -- the two neighbours and the vertex itself are never visible
  have hsee : ∀ j : Int, (j = 0 ∨ j = 1) → CanSee eps 0 j [v0, v1, v2] = false := by
    intro j hj
    apply CanSee_reflex_near eps _ 0 j (by simp) hr
    rcases hj with rfl | rfl
    · left; simp
    · right; right; simp
  -- the lower test never fires, the upper test can fire at `j = 1` only
  have l0 : Left (At ((0 : Int) - 1) [v0, v1, v2]) (At 0 [v0, v1, v2])
      (At ((0 : Nat) : Int) [v0, v1, v2]) = false := by
    simp [Left, At, Int.tmod, Area]
  have l1 : Left (At ((0 : Int) - 1) [v0, v1, v2]) (At 0 [v0, v1, v2])
      (At ((1 : Nat) : Int) [v0, v1, v2]) = false := by
    have := Area_cyclic v2 v0 v1
    simp [Left, At, Int.tmod]
    linarith
  have l2 : Left (At ((0 : Int) - 1) [v0, v1, v2]) (At 0 [v0, v1, v2])
      (At ((2 : Nat) : Int) [v0, v1, v2]) = false := by
    simp [Left, At, Int.tmod, Area]
  have u0 : Left (At ((0 : Int) + 1) [v0, v1, v2]) (At 0 [v0, v1, v2])
      (At (((0 : Nat) : Int) + 1) [v0, v1, v2]) = false := by
    simp [Left, At, Int.tmod, Area]
  have u2 : Left (At ((0 : Int) + 1) [v0, v1, v2]) (At 0 [v0, v1, v2])
      (At (((2 : Nat) : Int) + 1) [v0, v1, v2]) = false := by
    simp [Left, At, Int.tmod, Area]
  have hsearch : search eps 0 [v0, v1, v2] = searchUpper eps 0 [v0, v1, v2] Search.init 1 := by
    simp only [search, List.length_cons, List.length_nil, List.range_succ, List.range_zero,
      List.nil_append, List.cons_append, List.foldl_cons, List.foldl_nil, searchStep_eq]
    rw [searchLower_of_not_left _ _ _ _ _ l0, searchUpper_of_not_left _ _ _ _ _ u0,
      searchLower_of_not_left _ _ _ _ _ l1, searchLower_of_not_left _ _ _ _ _ l2,
      searchUpper_of_not_left _ _ _ _ _ u2]
    rfl
  obtain ⟨ilow, iup⟩ := searchUpper_indices eps 0 [v0, v1, v2] Search.init 1
  rw [← hsearch] at ilow iup
  have hlow : (search eps 0 [v0, v1, v2]).lowerIndex = 0 := ilow
  have hup : (search eps 0 [v0, v1, v2]).upperIndex = 0 ∨
      (search eps 0 [v0, v1, v2]).upperIndex = 1 := iup
  have hbest : ∀ up : Int, (up = 0 ∨ up = 1) → bestIndex eps 0 0 up [v0, v1, v2] = 0 := by
    intro up hup'
    have hraise : raiseIndex (([v0, v1, v2] : Polygon).length : Int) 0 ((0 : Int) - up).toNat up
        = up := by
      rcases hup' with rfl | rfl <;> simp [raiseIndex]
    unfold bestIndex
    simp only [hraise]
    rcases hup' with rfl | rfl
    · simp [List.range_succ, scoreStep, hsee 0 (Or.inl rfl)]
    · simp [List.range_succ, scoreStep, hsee 0 (Or.inl rfl), hsee 1 (Or.inr rfl)]
  have hbest' : bestIndex eps 0 (search eps 0 [v0, v1, v2]).lowerIndex
      (search eps 0 [v0, v1, v2]).upperIndex [v0, v1, v2] = 0 := by
    rw [hlow]
    exact hbest _ hup
  have hcopy : Copy 0 0 [v0, v1, v2] = [v0] := by
    rw [Copy_of_le _ 0 0 (le_refl _)]
    simp [List.range_succ, At, Int.tmod]
  have hsplit : reflexSplit eps 0 [v0, v1, v2] = ([v0], [v0]) := by
    unfold reflexSplit
    have hcond : ¬ (search eps 0 [v0, v1, v2]).lowerIndex =
        Int.tmod ((search eps 0 [v0, v1, v2]).upperIndex + 1) ([v0, v1, v2] : Polygon).length := by
      rw [hlow]
      rcases hup with h | h <;> rw [h] <;> simp [Int.tmod]
    simp only [hcond, if_false, hbest', hcopy]
  have hone : firstReflex [v0] = none := by
    rw [firstReflex_eq_none]
    intro k hk
    simp only [List.length_singleton, Nat.lt_one_iff] at hk
    subst hk
    simp [Reflex, RightAt, Right, At, Int.tmod, Area]
  refine ⟨hfirst, hlow, hsee, hbest', hsplit, ?_⟩
  have e : TriangulatePolygon MAX_VERTICES eps 2 [v0, v1, v2] = some [[v0], [v0]] := by
    have hsplit' : reflexSplit eps ((0 : Nat) : Int) [v0, v1, v2] = ([v0], [v0]) := hsplit
    rw [TriangulatePolygon_reflex _ _ _ _ _ hfirst, hsplit',
      TriangulatePolygon_convex _ _ _ _ hone (by simp [MAX_VERTICES])]
    rfl
  have := TriangulatePolygon_mono MAX_VERTICES eps _ _ 2 e fuel
  rw [Nat.add_comm] at this
  exact this

/-- The clockwise triangle `(0,0), (0,1), (1,0)` comes back as `[[(0,0)], [(0,0)]]`. -/
theorem C20_witness :
    Area ⟨0, 0⟩ ⟨0, 1⟩ ⟨1, 0⟩ < 0 ∧
    Decompose 2 [⟨0, 0⟩, ⟨0, 1⟩, ⟨1, 0⟩] = some [[⟨0, 0⟩], [⟨0, 0⟩]] ∧
    TriangulatePolygon MAX_VERTICES EPSILON (0 + 2) [⟨0, 0⟩, ⟨0, 1⟩, ⟨1, 0⟩] =
      some [[⟨0, 0⟩], [⟨0, 0⟩]] :=
  ⟨by decide!, by decide!,
    (C20_clockwise_triangle_gives_two_points EPSILON ⟨0, 0⟩ ⟨0, 1⟩ ⟨1, 0⟩ (by decide!)
      0).2.2.2.2.2⟩

/-! ## Candidates past the last index -/

/-- For an index `j` at or above `n` (and `i` below `n`) the skip test of the edge loop
never fires on account of `j`: the edges at vertex `j mod n` are tested like any other. -/
theorem CanSeeEdges_past_n (eps : ℚ) (P : Polygon) (i j : Int) (hj : (P.length : Int) ≤ j) :
    CanSeeEdges eps i j P =
      (List.range P.length).all fun (kn : Nat) =>
        if Int.tmod ((kn : Int) + 1) P.length = i || (kn : Int) = i then true
        else !(LineIntersect5 eps (At i P) (At j P) (At (kn : Int) P)
                (At ((kn : Int) + 1) P)).1 := by
  unfold CanSeeEdges
  rw [Bool.eq_iff_iff, List.all_eq_true, List.all_eq_true]
  have key : ∀ k ∈ List.range P.length,
      ¬ ((k : Int) = j) ∧ ¬ (Int.tmod ((k : Int) + 1) P.length = j) := by
    intro k hk
    have hkn : k < P.length := List.mem_range.mp hk
    refine ⟨by omega, ?_⟩
    intro h
    have hs : (0 : Int) < (P.length : Int) := by omega
    rw [Int.tmod_eq_emod (by omega) (by omega)] at h
    have := Int.emod_lt_of_pos ((k : Int) + 1) hs
    omega
  constructor
  · intro h k hk
    have := h k hk
    obtain ⟨h1, h2⟩ := key k hk
    simpa [h1, h2] using this
  · intro h k hk
    have := h k hk
    obtain ⟨h1, h2⟩ := key k hk
    simpa [h1, h2] using this

/-- C14 at work on `wrapPentagon`: the scan at the reflex vertex 2 runs over `j = 4, 5`;
vertex 0 is visible from vertex 2 (`CanSee(2, 0)` is true), but `CanSee(2, 5)` is false,
because the edges 4 and 0, both incident to vertex `5 mod 5 = 0`, are tested and meet the
segment at that vertex; so `bestIndex` is 4 although candidate 5 has the higher score. -/
theorem C14_incident_edges_tested_past_n :
    validInput wrapPentagon = true ∧ firstReflex wrapPentagon = some 2 ∧
    (search EPSILON 2 wrapPentagon).lowerIndex = 4 ∧
    (search EPSILON 2 wrapPentagon).upperIndex = 0 ∧
    raiseIndex wrapPentagon.length 4 ((4 : Int) - 0).toNat 0 = 5 ∧
    CanSee EPSILON 2 0 wrapPentagon = true ∧
    CanSee EPSILON 2 5 wrapPentagon = false ∧
    ¬ (CanSee EPSILON 2 5 wrapPentagon = CanSee EPSILON 2 (5 % 5) wrapPentagon) ∧
    (LineIntersect5 EPSILON (At 2 wrapPentagon) (At 5 wrapPentagon) (At 0 wrapPentagon)
      (At 1 wrapPentagon)) = (true, ⟨1, 3⟩) ∧
    (LineIntersect5 EPSILON (At 2 wrapPentagon) (At 5 wrapPentagon) (At 4 wrapPentagon)
      (At 5 wrapPentagon)) = (true, ⟨1, 3⟩) ∧
    CanSee EPSILON 2 4 wrapPentagon = true ∧
    score 2 4 wrapPentagon < score 2 5 wrapPentagon ∧
    bestIndex EPSILON 2 4 0 wrapPentagon = 4 ∧
    Decompose 2 wrapPentagon =
      some [[⟨1, 1⟩, ⟨3, 0⟩, ⟨4, 4⟩], [⟨4, 4⟩, ⟨1, 3⟩, ⟨0, 1⟩, ⟨1, 1⟩]] := by
  refine ⟨by decide!, by decide!, by decide!, by decide!, by decide!, by decide!, by decide!,
    by decide!, by decide!, by decide!, by decide!, by decide!, by decide!, by decide!⟩

end p2bayazit
